import Mathlib

/-!
Verification of the QGeoloGIS plugin sources (`config.py` and
`qgeologis/legend_item.py`) against their natural-language specification.

The host (QGIS) objects are modelled by the slice of their API surface the
plugin actually uses: a vector layer carries an id, a source connection
string, a display name and a provider type; the project is a list of such
layers in insertion order.  Python dictionaries are modelled by
insertion-ordered association lists, and the heterogeneous plot/layer
dictionaries by structures whose fields are the keys the code reads or
writes (`Option` encodes a possibly-missing key).  File writing/reading is
modelled by returning / receiving the value that would be serialized:
`json.dump`/`json.load` round-trip the dictionary tree unchanged.
Python exceptions (KeyError, TypeError, ValueError) are modelled by
`Except String`.
-/

/-- A QGIS vector layer, restricted to the API surface `config.py` uses:
`id()`, `source()`, `name()`, `providerType()`, `setName()`. -/
structure Layer where
  id : String
  source : String
  name : String
  provider : String
deriving DecidableEq

/-- The value stored under the literal key `"source"` of a plot dictionary:
a layer-id string before export, or the portable mapping
`{source, name, provider}` written by `export_config`. -/
inductive SourceVal where
  | layerId (s : String)
  | triple (source name provider : String)
deriving DecidableEq

instance : Inhabited SourceVal := ⟨SourceVal.layerId ""⟩

/-- A plot dictionary: one element of the `stratigraphy_config`,
`log_measures` or `timeseries` lists.  Fields are the keys read or written
by `config.py` (`PlotConfig` and the export/import/remove functions); a
`none` field is a missing key. -/
structure PlotDict where
  source : SourceVal
  type : Option String := none
  uom : Option String := none
  uom_column : Option String := none
  style : Option String := none
  symbology : Option String := none
  symbology_type : Option Nat := none
deriving DecidableEq

instance : Inhabited PlotDict := ⟨{ source := SourceVal.layerId "" }⟩

/-- The dictionary stored under one root-layer key of the main
configuration: up to three plot lists, under the literal keys
`"stratigraphy_config"`, `"log_measures"` and `"timeseries"`.
A `none` field is a missing key. -/
structure LayerDict where
  stratigraphy_config : Option (List PlotDict) := none
  log_measures : Option (List PlotDict) := none
  timeseries : Option (List PlotDict) := none
deriving DecidableEq

/-- The main configuration: a Python dict from root-layer key to layer
dictionary, modelled as an insertion-ordered association list. -/
abbrev Config := List (String × LayerDict)

/-- `QgsProject.instance().mapLayer(lid)`: look a layer up by id. -/
def mapLayer (proj : List Layer) (lid : String) : Option Layer :=
  proj.find? (fun l => l.id == lid)

/-- Python `d[k] = v` on an insertion-ordered dict: replace the value in
place when the key exists, append otherwise. -/
def dictSet (c : Config) (k : String) (v : LayerDict) : Config :=
  if (c.find? (fun e => e.1 == k)).isSome then
    c.map (fun e => if e.1 == k then (k, v) else e)
  else
    c ++ [(k, v)]

/-- Python `config[subkey]` on a possibly-missing plot-list key:
raises `KeyError` when the key is absent. -/
def getSub (o : Option (List PlotDict)) : Except String (List PlotDict) :=
  match o with
  | none => Except.error "KeyError"
  | some l => Except.ok l

/-- The root key written by `export_config` line 221:
`"{}#{}#{}".format(root_layer.source(), root_layer.name(), root_layer.providerType())`. -/
def rootKey (l : Layer) : String :=
  l.source ++ "#" ++ l.name ++ "#" ++ l.provider

/-- The body of the innermost export loop (`config.py` lines 210-219):
read `layer_cfg["source"]`, look the layer up, skip the plot if the layer
is unknown, otherwise replace the source by the portable mapping.
A non-string source (already a mapping) makes `mapLayer` raise
`TypeError`. -/
def exportPlot (proj : List Layer) (p : PlotDict) : Except String PlotDict :=
  match p.source with
  | SourceVal.triple _ _ _ => Except.error "TypeError"
  | SourceVal.layerId source_id =>
    match mapLayer proj source_id with
    | none => Except.ok p
    | some source =>
      Except.ok { p with
        source := SourceVal.triple source.source source.name source.provider }

/-- `for layer_cfg in config[subkey]` with the source substitution applied
to each element in order. -/
def exportPlots (proj : List Layer) (ps : List PlotDict) :
    Except String (List PlotDict) :=
  match ps with
  | [] => Except.ok []
  | p :: rest => do
    let q ← exportPlot proj p
    let qs ← exportPlots proj rest
    Except.ok (q :: qs)

/-- `for subkey in ("stratigraphy_config", "log_measures", "timeseries")`
of `export_config`: substitute sources in the three plot lists. -/
def exportLayerDict (proj : List Layer) (ld : LayerDict) :
    Except String LayerDict := do
  let s ← getSub ld.stratigraphy_config
  let s2 ← exportPlots proj s
  let m ← getSub ld.log_measures
  let m2 ← exportPlots proj m
  let t ← getSub ld.timeseries
  let t2 ← exportPlots proj t
  Except.ok { stratigraphy_config := some s2, log_measures := some m2,
              timeseries := some t2 }

/-- The outer loop of `export_config` (lines 202-222): for each root entry,
skip it when the root layer is unknown, otherwise substitute plot sources
and store the result in `new_dict` under the joined root key. -/
def exportLoop (proj : List Layer) (entries : Config) (new_dict : Config) :
    Except String Config :=
  match entries with
  | [] => Except.ok new_dict
  | (root_layer_id, config) :: rest =>
    match mapLayer proj root_layer_id with
    | none => exportLoop proj rest new_dict
    | some root_layer => do
      let config2 ← exportLayerDict proj config
      exportLoop proj rest (dictSet new_dict (rootKey root_layer) config2)

/-- `export_config` (`config.py` lines 182-226), with the written file
modelled by the returned dictionary value.  The deep copy means the
caller's dictionary is untouched; the value-level result is the content
`json.dump` writes. -/
def export_config (proj : List Layer) (main_config : Config) :
    Except String Config :=
  exportLoop proj main_config []

/-- Python `key.split('#')` at the character level. -/
def splitHash (l : List Char) : List (List Char) :=
  match l with
  | [] => [[]]
  | c :: rest =>
    if c = '#' then [] :: splitHash rest
    else
      match splitHash rest with
      | [] => [[c]]
      | h :: t => (c :: h) :: t

/-- The project state seen by `import_config`: the layers of the current
project in insertion order, plus a counter generating fresh layer ids for
`QgsVectorLayer(...)` construction. -/
structure PState where
  layers : List Layer
  counter : Nat
deriving DecidableEq

/-- The id given to a newly constructed `QgsVectorLayer`. -/
def freshLayerId (st : PState) : String :=
  "layer" ++ toString st.counter

/-- The overwrite scan of `find_existing_layer_or_create` (lines 253-256):
walk the project's layers in order; on the first layer whose source and
provider type match, rename it in place and return it. -/
def findAndRename (layers : List Layer) (src nm prov : String) :
    Option (Layer × List Layer) :=
  match layers with
  | [] => none
  | l :: rest =>
    if l.source == src && l.provider == prov then
      let l2 : Layer := { l with name := nm }
      some (l2, l2 :: rest)
    else
      match findAndRename rest src nm prov with
      | some (r, rest2) => some (r, l :: rest2)
      | none => none

/-- `find_existing_layer_or_create` (`config.py` lines 251-260): under
overwrite, reuse and rename the first project layer with matching source
and provider; otherwise construct a new layer and add it to the
project. -/
def find_existing_layer_or_create (st : PState) (src nm prov : String)
    (do_overwrite : Bool) : Layer × PState :=
  match (if do_overwrite then findAndRename st.layers src nm prov else none) with
  | some (l, ls) => (l, { st with layers := ls })
  | none =>
    let l : Layer := { id := freshLayerId st, source := src, name := nm,
                       provider := prov }
    (l, { layers := st.layers ++ [l], counter := st.counter + 1 })

/-- The inner plot loop of `import_config` (lines 270-277): each plot's
source mapping is resolved to a layer and replaced by that layer's id.
A plot whose source is still a string makes `source["source"]` raise
`TypeError`. -/
def importPlots (ps : List PlotDict) (st : PState) (ow : Bool) :
    Except String (List PlotDict × PState) :=
  match ps with
  | [] => Except.ok ([], st)
  | p :: rest =>
    match p.source with
    | SourceVal.layerId _ => Except.error "TypeError"
    | SourceVal.triple s n pr =>
      let r := find_existing_layer_or_create st s n pr ow
      do
        let (qs, st3) ← importPlots rest r.2 ow
        Except.ok (({ p with source := SourceVal.layerId r.1.id }) :: qs, st3)

/-- The three-subkey loop of `import_config` for one root entry. -/
def importLayerDict (ld : LayerDict) (st : PState) (ow : Bool) :
    Except String (LayerDict × PState) := do
  let s ← getSub ld.stratigraphy_config
  let rs ← importPlots s st ow
  let m ← getSub ld.log_measures
  let rm ← importPlots m rs.2 ow
  let t ← getSub ld.timeseries
  let rt ← importPlots t rm.2 ow
  Except.ok ({ stratigraphy_config := some rs.1, log_measures := some rm.1,
               timeseries := some rt.1 }, rt.2)

/-- The outer loop of `import_config` (lines 263-280): split the root key
on `'#'` (unpacking into anything but three parts raises `ValueError`),
resolve or create the root layer, import the three plot lists, and store
the entry in `new_config` under the root layer's id. -/
def importLoop (entries : Config) (st : PState) (ow : Bool)
    (new_config : Config) : Except String (Config × PState) :=
  match entries with
  | [] => Except.ok (new_config, st)
  | (root_key, config) :: rest =>
    match splitHash root_key.data with
    | [a, b, c] =>
      let r := find_existing_layer_or_create st (String.mk a) (String.mk b)
        (String.mk c) ow
      do
        let (ld2, st3) ← importLayerDict config r.2 ow
        importLoop rest st3 ow (dictSet new_config r.1.id ld2)
    | _ => Except.error "ValueError"

/-- `import_config` (`config.py` lines 229-282), with the read file
modelled by the `config_json` argument. -/
def import_config (config_json : Config) (st : PState)
    (overwrite_existing : Bool) : Except String (Config × PState) :=
  importLoop config_json st overwrite_existing []

/-- The plot filter of `remove_layer_from_config` (lines 300-305): keep a
plot unless its source equals the removed layer id.  (A mapping-valued
source never equals the id string, so it is kept.) -/
def filterPlots (ps : List PlotDict) (layer_id : String) : List PlotDict :=
  ps.filter (fun p => p.source ≠ SourceVal.layerId layer_id)

/-- One root entry's subkey loop of `remove_layer_from_config`. -/
def removeFromLayerDict (ld : LayerDict) (layer_id : String) :
    Except String LayerDict := do
  let s ← getSub ld.stratigraphy_config
  let m ← getSub ld.log_measures
  let t ← getSub ld.timeseries
  Except.ok { stratigraphy_config := some (filterPlots s layer_id),
              log_measures := some (filterPlots m layer_id),
              timeseries := some (filterPlots t layer_id) }

/-- `remove_layer_from_config` (`config.py` lines 284-305).  The function
iterates the root entries in order; when the removed id is itself a root
key the function executes `del config` -- which unbinds the local name
only, leaving the dictionary unchanged -- and returns, so the matching
entry and every later entry survive untouched. -/
def remove_layer_from_config (config : Config) (layer_id : String) :
    Except String Config :=
  match config with
  | [] => Except.ok []
  | (root_layer_id, sub_config) :: rest =>
    if layer_id == root_layer_id then
      Except.ok ((root_layer_id, sub_config) :: rest)
    else do
      let ld2 ← removeFromLayerDict sub_config layer_id
      let rest2 ← remove_layer_from_config rest layer_id
      Except.ok ((root_layer_id, ld2) :: rest2)

/-! ### Shared well-formedness predicates -/

/-- All three plot-list keys are present on a layer dictionary. -/
def layerWF (ld : LayerDict) : Prop :=
  ld.stratigraphy_config.isSome = true ∧ ld.log_measures.isSome = true ∧
    ld.timeseries.isSome = true

/-- Every root entry of a configuration has the three plot lists. -/
def configWF (c : Config) : Prop := ∀ e ∈ c, layerWF e.2

/-- All plots of a layer dictionary, in subkey order. -/
def ldPlots (ld : LayerDict) : List PlotDict :=
  ld.stratigraphy_config.getD [] ++ ld.log_measures.getD [] ++
    ld.timeseries.getD []

/-- The plot's source is still an internal layer-id string. -/
def sourceIsId (p : PlotDict) : Prop := ∃ s, p.source = SourceVal.layerId s

/-- The plot's source is a portable triple mapping. -/
def sourceIsTriple (p : PlotDict) : Prop :=
  ∃ a b c, p.source = SourceVal.triple a b c

/-- Every plot source in the configuration is a layer-id string. -/
def allSourcesIds (c : Config) : Prop :=
  ∀ e ∈ c, ∀ p ∈ ldPlots e.2, sourceIsId p

/-- Every plot source in the configuration is a portable triple. -/
def allSourcesTriples (c : Config) : Prop :=
  ∀ e ∈ c, ∀ p ∈ ldPlots e.2, sourceIsTriple p

lemma except_bind_ok {α β : Type} (x : α) (f : α → Except String β) :
    (Except.ok x >>= f) = f x := rfl

lemma except_bind_error {α β : Type} (e : String)
    (f : α → Except String β) :
    ((Except.error e : Except String α) >>= f) = Except.error e := rfl

instance (ld : LayerDict) : Decidable (layerWF ld) := by
  unfold layerWF; infer_instance

lemma dictSet_fresh (c : Config) (k : String) (v : LayerDict)
    (h : ∀ e ∈ c, e.1 ≠ k) : dictSet c k v = c ++ [(k, v)] := by
  unfold dictSet
  have hf : c.find? (fun e => e.1 == k) = none := by
    apply List.find?_eq_none.mpr
    intro e he
    simpa using h e he
  simp [hf]

/-! ### C8: remove_layer_from_config leaves the matching root entry alone -/

/-- The value a root entry's dictionary has after the subkey filtering loop
of `remove_layer_from_config` ran over it. -/
def filterLayerDict (ld : LayerDict) (layer_id : String) : LayerDict :=
  { stratigraphy_config :=
      some (filterPlots (ld.stratigraphy_config.getD []) layer_id),
    log_measures := some (filterPlots (ld.log_measures.getD []) layer_id),
    timeseries := some (filterPlots (ld.timeseries.getD []) layer_id) }

lemma removeFromLayerDict_wf (ld : LayerDict) (lid : String)
    (h : layerWF ld) :
    removeFromLayerDict ld lid = Except.ok (filterLayerDict ld lid) := by
  obtain ⟨h1, h2, h3⟩ := h
  obtain ⟨s, hs⟩ := Option.isSome_iff_exists.mp h1
  obtain ⟨m, hm⟩ := Option.isSome_iff_exists.mp h2
  obtain ⟨t, ht⟩ := Option.isSome_iff_exists.mp h3
  simp [removeFromLayerDict, getSub, hs, hm, ht, filterLayerDict,
    except_bind_ok]

/-- C8: when `layer_id` is one of the root keys, `remove_layer_from_config`
returns with that entry still present and its three plot lists unchanged
(`del config` only unbinds the local name), and only the root entries
iterated before the matching key have had the plots whose source equals
`layer_id` filtered out of their lists. -/
theorem c8_remove_layer_keeps_matching_root (pre post : Config)
    (ld : LayerDict) (lid : String)
    (hpre : ∀ e ∈ pre, lid ≠ e.1 ∧ layerWF e.2) :
    remove_layer_from_config (pre ++ (lid, ld) :: post) lid =
      Except.ok (pre.map (fun e => (e.1, filterLayerDict e.2 lid)) ++
        (lid, ld) :: post) := by
  induction pre with
  | nil => simp [remove_layer_from_config]
  | cons e rest ih =>
    obtain ⟨k, sub⟩ := e
    obtain ⟨hne, hwf⟩ := hpre (k, sub) (by simp)
    have ih2 := ih (fun e he => hpre e (List.mem_cons_of_mem _ he))
    simp only [List.cons_append, remove_layer_from_config]
    rw [if_neg (by simpa using hne)]
    rw [removeFromLayerDict_wf sub lid hwf]
    simp [except_bind_ok, ih2]

/-- Witness for C8 at a concrete configuration. -/
theorem c8_witness :
    remove_layer_from_config
      [("A", { stratigraphy_config :=
                 some [{ source := SourceVal.layerId "B" }],
               log_measures := some [], timeseries := some [] }),
       ("B", { stratigraphy_config :=
                 some [{ source := SourceVal.layerId "B" }],
               log_measures := some [], timeseries := some [] })] "B" =
      Except.ok
        [("A", { stratigraphy_config := some ([] : List PlotDict),
                 log_measures := some [], timeseries := some [] }),
         ("B", { stratigraphy_config :=
                   some [{ source := SourceVal.layerId "B" }],
                 log_measures := some [], timeseries := some [] })] := by
  have h := c8_remove_layer_keeps_matching_root
    [("A", { stratigraphy_config :=
               some [{ source := SourceVal.layerId "B" }],
             log_measures := some [], timeseries := some [] })]
    []
    { stratigraphy_config := some [{ source := SourceVal.layerId "B" }],
      log_measures := some [], timeseries := some [] }
    "B" (by decide)
  simpa [filterLayerDict, filterPlots] using h

/-! ### C9: the hash-joined root key -/

/-- C9: splitting on `'#'` recovers the triple exactly when no component
contains `'#'`; a root layer whose source does contain `'#'` exports to a
root key whose three-way unpack fails, so importing the exported file
raises `ValueError`. -/
theorem c9_root_key_split :
    (∀ l : Layer, '#' ∉ l.source.data → '#' ∉ l.name.data →
      '#' ∉ l.provider.data →
      splitHash (rootKey l).data = [l.source.data, l.name.data,
        l.provider.data]) ∧
    ((export_config [⟨"x", "a#b", "nm", "prov"⟩]
        [("x", { stratigraphy_config := some [], log_measures := some [],
                 timeseries := some [] })] >>=
      fun out => import_config out ⟨[], 0⟩ false) =
      Except.error "ValueError") := by
  constructor
  · intro l hs hn hp
    have splitHash_no_hash : ∀ a : List Char, '#' ∉ a →
        splitHash a = [a] := by
      intro a ha
      induction a with
      | nil => rfl
      | cons c rest ih =>
        have hc : ¬ c = '#' := by
          intro h; exact ha (h ▸ List.mem_cons_self c rest)
        have hrest : '#' ∉ rest := fun h => ha (List.mem_cons_of_mem _ h)
        simp [splitHash, hc, ih hrest]
    have splitHash_append : ∀ (a r : List Char), '#' ∉ a →
        splitHash (a ++ '#' :: r) = a :: splitHash r := by
      intro a r ha
      induction a with
      | nil => simp [splitHash]
      | cons c rest ih =>
        have hc : ¬ c = '#' := by
          intro h; exact ha (h ▸ List.mem_cons_self c rest)
        have hrest : '#' ∉ rest := fun h => ha (List.mem_cons_of_mem _ h)
        simp [splitHash, hc, ih hrest]
    have hdata : (rootKey l).data =
        l.source.data ++ '#' :: (l.name.data ++ '#' :: l.provider.data) := by
      simp [rootKey, String.data_append]
    rw [hdata, splitHash_append _ _ hs, splitHash_append _ _ hn,
      splitHash_no_hash _ hp]
  · rfl

/-- Witness for C9 at a concrete hash-free triple. -/
theorem c9_witness :
    splitHash (rootKey ⟨"i", "s", "n", "p"⟩).data =
      ["s".data, "n".data, "p".data] :=
  c9_root_key_split.1 ⟨"i", "s", "n", "p"⟩ (by decide) (by decide)
    (by decide)

/-! ### C1: export_config replaces layer ids by portable triples -/

/-- The plot's source is a layer-id string that resolves in the project. -/
def plotSourceResolves (proj : List Layer) (p : PlotDict) : Prop :=
  ∃ s, p.source = SourceVal.layerId s ∧ (mapLayer proj s).isSome = true

instance (proj : List Layer) (p : PlotDict) :
    Decidable (plotSourceResolves proj p) :=
  match h : p.source with
  | SourceVal.layerId s =>
    if hs : (mapLayer proj s).isSome = true then
      Decidable.isTrue ⟨s, h, hs⟩
    else
      Decidable.isFalse (by
        rintro ⟨s2, h2, hs2⟩
        rw [h] at h2
        injection h2 with he
        subst he
        exact hs hs2)
  | SourceVal.triple a b c =>
    Decidable.isFalse (by
      rintro ⟨s2, h2, _⟩
      rw [h] at h2
      exact SourceVal.noConfusion h2)

instance (c : Config) : Decidable (configWF c) := by
  unfold configWF; infer_instance

/-- Claim-side relation: the exported plot is the original plot with its
source replaced by the `(source, name, provider)` mapping of the layer the
original id denotes. -/
def plotExported (proj : List Layer) (p q : PlotDict) : Prop :=
  ∃ s l, p.source = SourceVal.layerId s ∧ mapLayer proj s = some l ∧
    q = { p with source := SourceVal.triple l.source l.name l.provider }

/-- Claim-side relation lifted to one root entry's dictionary. -/
def ldExported (proj : List Layer) (ld ld2 : LayerDict) : Prop :=
  ∃ s m t, ld.stratigraphy_config = some s ∧ ld.log_measures = some m ∧
    ld.timeseries = some t ∧
    ∃ s2 m2 t2, ld2 = ⟨some s2, some m2, some t2⟩ ∧
      List.Forall₂ (plotExported proj) s s2 ∧
      List.Forall₂ (plotExported proj) m m2 ∧
      List.Forall₂ (plotExported proj) t t2

/-- Claim-side relation for one root entry: the written key is the
`"source#name#provider"` string of the root layer, and every plot source
became the portable mapping. -/
def entryExported (proj : List Layer) (e o : String × LayerDict) : Prop :=
  (∃ l, mapLayer proj e.1 = some l ∧ o.1 = rootKey l) ∧
    ldExported proj e.2 o.2

/-- Every root id and every plot source id of the configuration denotes a
layer of the project. -/
def configResolves (proj : List Layer) (c : Config) : Prop :=
  ∀ e ∈ c, (mapLayer proj e.1).isSome = true ∧
    ∀ p ∈ ldPlots e.2, plotSourceResolves proj p

instance (proj : List Layer) (c : Config) :
    Decidable (configResolves proj c) := by
  unfold configResolves; infer_instance

/-- Distinct root entries lead to distinct written root keys. -/
def distinctRootKeys (proj : List Layer) (c : Config) : Prop :=
  List.Pairwise (fun e1 e2 => ∀ l1 l2, mapLayer proj e1.1 = some l1 →
    mapLayer proj e2.1 = some l2 → rootKey l1 ≠ rootKey l2) c

lemma exportPlot_resolves (proj : List Layer) (p : PlotDict)
    (h : plotSourceResolves proj p) :
    ∃ q, exportPlot proj p = Except.ok q ∧ plotExported proj p q := by
  obtain ⟨s, hs, hiso⟩ := h
  obtain ⟨l, hl⟩ := Option.isSome_iff_exists.mp hiso
  refine ⟨_, ?_, s, l, hs, hl, rfl⟩
  simp [exportPlot, hs, hl]

lemma exportPlots_resolves (proj : List Layer) (ps : List PlotDict)
    (h : ∀ p ∈ ps, plotSourceResolves proj p) :
    ∃ qs, exportPlots proj ps = Except.ok qs ∧
      List.Forall₂ (plotExported proj) ps qs := by
  induction ps with
  | nil => exact ⟨[], rfl, List.Forall₂.nil⟩
  | cons p rest ih =>
    obtain ⟨q, hq, hpe⟩ := exportPlot_resolves proj p (h p (by simp))
    obtain ⟨qs, hqs, hf⟩ := ih (fun p hp => h p (List.mem_cons_of_mem _ hp))
    refine ⟨q :: qs, ?_, List.Forall₂.cons hpe hf⟩
    simp [exportPlots, hq, hqs, except_bind_ok]

lemma exportLayerDict_resolves (proj : List Layer) (ld : LayerDict)
    (hwf : layerWF ld) (h : ∀ p ∈ ldPlots ld, plotSourceResolves proj p) :
    ∃ ld2, exportLayerDict proj ld = Except.ok ld2 ∧
      ldExported proj ld ld2 := by
  obtain ⟨h1, h2, h3⟩ := hwf
  obtain ⟨s, hs⟩ := Option.isSome_iff_exists.mp h1
  obtain ⟨m, hm⟩ := Option.isSome_iff_exists.mp h2
  obtain ⟨t, ht⟩ := Option.isSome_iff_exists.mp h3
  have hmem_s : ∀ p ∈ s, p ∈ ldPlots ld := by
    intro p hp
    simp [ldPlots, hs, hm, ht, hp]
  have hmem_m : ∀ p ∈ m, p ∈ ldPlots ld := by
    intro p hp
    simp [ldPlots, hs, hm, ht, hp]
  have hmem_t : ∀ p ∈ t, p ∈ ldPlots ld := by
    intro p hp
    simp [ldPlots, hs, hm, ht, hp]
  obtain ⟨s2, hs2, hfs⟩ := exportPlots_resolves proj s
    (fun p hp => h p (hmem_s p hp))
  obtain ⟨m2, hm2, hfm⟩ := exportPlots_resolves proj m
    (fun p hp => h p (hmem_m p hp))
  obtain ⟨t2, ht2, hft⟩ := exportPlots_resolves proj t
    (fun p hp => h p (hmem_t p hp))
  refine ⟨_, ?_, s, m, t, hs, hm, ht, s2, m2, t2, rfl, hfs, hfm, hft⟩
  simp [exportLayerDict, getSub, hs, hm, ht, hs2, hm2, ht2, except_bind_ok]

lemma exportLoop_ok (proj : List Layer) (c : Config) :
    ∀ acc : Config, configWF c → configResolves proj c →
    distinctRootKeys proj c →
    (∀ e ∈ c, ∀ l, mapLayer proj e.1 = some l →
      ∀ a ∈ acc, a.1 ≠ rootKey l) →
    ∃ out, exportLoop proj c acc = Except.ok (acc ++ out) ∧
      List.Forall₂ (entryExported proj) c out := by
  induction c with
  | nil =>
    intro acc _ _ _ _
    exact ⟨[], by simp [exportLoop], List.Forall₂.nil⟩
  | cons e rest ih =>
    intro acc hwf hres hdist hfresh
    obtain ⟨rid, ld⟩ := e
    obtain ⟨hr, hplots⟩ := hres (rid, ld) (by simp)
    obtain ⟨rl, hrl⟩ := Option.isSome_iff_exists.mp hr
    obtain ⟨ld2, hld2, hlde⟩ := exportLayerDict_resolves proj ld
      (hwf (rid, ld) (by simp)) hplots
    have hset : dictSet acc (rootKey rl) ld2 = acc ++ [(rootKey rl, ld2)] :=
      dictSet_fresh _ _ _ (fun a ha => hfresh (rid, ld) (by simp) rl hrl a ha)
    have hrest_fresh : ∀ e ∈ rest, ∀ l, mapLayer proj e.1 = some l →
        ∀ a ∈ acc ++ [(rootKey rl, ld2)], a.1 ≠ rootKey l := by
      intro e he l hl a ha
      rcases List.mem_append.mp ha with h1 | h2
      · exact hfresh e (List.mem_cons_of_mem _ he) l hl a h1
      · have ha2 : a = (rootKey rl, ld2) := by simpa using h2
        subst ha2
        exact (List.pairwise_cons.mp hdist).1 e he rl l hrl hl
    obtain ⟨out, hout, hfa⟩ := ih (acc ++ [(rootKey rl, ld2)])
      (fun e he => hwf e (List.mem_cons_of_mem _ he))
      (fun e he => hres e (List.mem_cons_of_mem _ he))
      (List.pairwise_cons.mp hdist).2 hrest_fresh
    refine ⟨(rootKey rl, ld2) :: out, ?_,
      List.Forall₂.cons ⟨⟨rl, hrl, rfl⟩, hlde⟩ hfa⟩
    simpa [exportLoop, hrl, hld2, except_bind_ok, hset] using hout

/-- C1: under a project resolving every stored identifier (and root layers
with pairwise distinct written keys), `export_config` succeeds, each root
key of the written file is the `"source#name#provider"` string of the
corresponding root layer, and each plot's `"source"` value has become the
`(source, name, provider)` mapping of the corresponding layer. -/
theorem c1_export_replaces_identifiers (proj : List Layer) (c : Config)
    (hwf : configWF c) (hres : configResolves proj c)
    (hdist : distinctRootKeys proj c) :
    ∃ out, export_config proj c = Except.ok out ∧
      List.Forall₂ (entryExported proj) c out := by
  obtain ⟨out, h1, h2⟩ := exportLoop_ok proj c [] hwf hres hdist (by simp)
  exact ⟨out, by simpa [export_config] using h1, h2⟩

/-- Witness for C1 at a concrete project and configuration. -/
theorem c1_witness :
    ∃ out, export_config
      [⟨"id1", "src1", "nm1", "prov1"⟩, ⟨"id2", "src2", "nm2", "prov2"⟩]
      [("id1", { stratigraphy_config :=
                   some [{ source := SourceVal.layerId "id2" }],
                 log_measures := some [], timeseries := some [] })] =
        Except.ok out ∧
      List.Forall₂ (entryExported
        [⟨"id1", "src1", "nm1", "prov1"⟩, ⟨"id2", "src2", "nm2", "prov2"⟩])
        [("id1", { stratigraphy_config :=
                     some [{ source := SourceVal.layerId "id2" }],
                   log_measures := some [], timeseries := some [] })] out :=
  c1_export_replaces_identifiers _ _ (by decide) (by decide)
    (by simp [distinctRootKeys])

/-! ### C3: filters never reach the exported file -/

/-- The `PlotConfig` Python object (`config.py` lines 24-77): the wrapped
dictionary plus the filter value and the filter unique values, which are
attributes of the object (`__filter_value`, `__filter_unique_values`) and
not entries of the wrapped dictionary. -/
structure PlotConfigObj where
  config : PlotDict
  filter_value : Option String := none
  filter_unique_values : List String := []
deriving DecidableEq

/-- `PlotConfig._get_dict`. -/
def PlotConfigObj.get_dict (o : PlotConfigObj) : PlotDict := o.config

/-- The in-memory plot objects of one root layer, as `LayerConfig` holds
them. -/
structure LayerObjs where
  strat : List PlotConfigObj
  logs : List PlotConfigObj
  ts : List PlotConfigObj
deriving DecidableEq

/-- The dictionary tree the in-memory objects stand for: what
`export_config` receives. -/
def LayerObjs.toDict (lo : LayerObjs) : LayerDict :=
  { stratigraphy_config := some (lo.strat.map PlotConfigObj.get_dict),
    log_measures := some (lo.logs.map PlotConfigObj.get_dict),
    timeseries := some (lo.ts.map PlotConfigObj.get_dict) }

/-- The application state: per root layer, the wrapped plot objects with
their filter attributes. -/
abbrev AppState := List (String × LayerObjs)

def AppState.toConfig (s : AppState) : Config :=
  s.map (fun e => (e.1, e.2.toDict))

/-- Reset every filter attribute (`set_filter_value(None)`,
`set_filter_unique_values([])`). -/
def PlotConfigObj.clearFilters (o : PlotConfigObj) : PlotConfigObj :=
  { config := o.config, filter_value := none, filter_unique_values := [] }

def LayerObjs.clearFilters (lo : LayerObjs) : LayerObjs :=
  { strat := lo.strat.map PlotConfigObj.clearFilters,
    logs := lo.logs.map PlotConfigObj.clearFilters,
    ts := lo.ts.map PlotConfigObj.clearFilters }

def AppState.clearFilters (s : AppState) : AppState :=
  s.map (fun e => (e.1, e.2.clearFilters))

lemma toConfig_clearFilters (s : AppState) :
    s.clearFilters.toConfig = s.toConfig := by
  unfold AppState.toConfig AppState.clearFilters
  rw [List.map_map]
  apply List.map_congr_left
  intro e _
  simp only [Function.comp_apply]
  unfold LayerObjs.toDict LayerObjs.clearFilters
  simp only [List.map_map]
  rfl

/-- C3: the exported file is a function of the configuration dictionary
alone; the filter value and the filter unique values live on the
`PlotConfig` objects outside that dictionary, so two application states
that differ only in active data filters export to identical files. -/
theorem c3_export_drops_filters (proj : List Layer) (s1 s2 : AppState)
    (h : s1.clearFilters = s2.clearFilters) :
    export_config proj s1.toConfig = export_config proj s2.toConfig := by
  rw [← toConfig_clearFilters s1, ← toConfig_clearFilters s2, h]

/-- Witness for C3: two states differing only in an active filter. -/
theorem c3_witness :
    export_config []
      (AppState.toConfig
        [("L", { strat := [{ config := { source := SourceVal.layerId "A" },
                             filter_value := some "sampled",
                             filter_unique_values := ["a", "b"] }],
                 logs := [], ts := [] })]) =
    export_config []
      (AppState.toConfig
        [("L", { strat := [{ config := { source := SourceVal.layerId "A" },
                             filter_value := none,
                             filter_unique_values := [] }],
                 logs := [], ts := [] })]) :=
  c3_export_drops_filters [] _ _ (by decide)

/-! ### C7: the three-list tree shape and its preservation -/

instance (p : PlotDict) : Decidable (sourceIsId p) :=
  match h : p.source with
  | SourceVal.layerId s => Decidable.isTrue ⟨s, h⟩
  | SourceVal.triple a b c =>
    Decidable.isFalse (by
      rintro ⟨s2, h2⟩
      rw [h] at h2
      exact SourceVal.noConfusion h2)

instance (p : PlotDict) : Decidable (sourceIsTriple p) :=
  match h : p.source with
  | SourceVal.layerId s =>
    Decidable.isFalse (by
      rintro ⟨a, b, c, h2⟩
      rw [h] at h2
      exact SourceVal.noConfusion h2)
  | SourceVal.triple a b c => Decidable.isTrue ⟨a, b, c, h⟩

instance (c : Config) : Decidable (allSourcesIds c) := by
  unfold allSourcesIds; infer_instance

instance (c : Config) : Decidable (allSourcesTriples c) := by
  unfold allSourcesTriples; infer_instance

/-- Import-side well-formedness: what every file written by a successful
export of a hash-free project satisfies -- each root key splits into three
parts, each entry has the three plot lists, and each plot source is a
portable triple. -/
def importWF (c : Config) : Prop :=
  ∀ e ∈ c, (splitHash e.1.data).length = 3 ∧ layerWF e.2 ∧
    ∀ p ∈ ldPlots e.2, sourceIsTriple p

instance (c : Config) : Decidable (importWF c) := by
  unfold importWF; infer_instance

/-- `LayerConfig._wrap` line 142: missing `"stratigraphy_config"` key means
an empty plot list; each element is wrapped in a fresh `PlotConfig` whose
filter attributes start out empty. -/
def wrap_stratigraphy_plots (ld : LayerDict) : List PlotConfigObj :=
  (ld.stratigraphy_config.getD []).map (fun p => { config := p })

/-- `LayerConfig._wrap` line 143. -/
def wrap_log_plots (ld : LayerDict) : List PlotConfigObj :=
  (ld.log_measures.getD []).map (fun p => { config := p })

/-- `LayerConfig._wrap` line 144. -/
def wrap_timeseries (ld : LayerDict) : List PlotConfigObj :=
  (ld.timeseries.getD []).map (fun p => { config := p })

lemma exportPlot_id_ok (proj : List Layer) (p : PlotDict)
    (h : sourceIsId p) : ∃ q, exportPlot proj p = Except.ok q := by
  obtain ⟨s, hs⟩ := h
  cases hl : mapLayer proj s with
  | none => exact ⟨p, by simp [exportPlot, hs, hl]⟩
  | some l =>
    exact ⟨{ p with
      source := SourceVal.triple l.source l.name l.provider },
      by simp [exportPlot, hs, hl]⟩

lemma exportPlots_id_ok (proj : List Layer) (ps : List PlotDict)
    (h : ∀ p ∈ ps, sourceIsId p) :
    ∃ qs, exportPlots proj ps = Except.ok qs := by
  induction ps with
  | nil => exact ⟨[], rfl⟩
  | cons p rest ih =>
    obtain ⟨q, hq⟩ := exportPlot_id_ok proj p (h p (by simp))
    obtain ⟨qs, hqs⟩ := ih (fun p hp => h p (List.mem_cons_of_mem _ hp))
    exact ⟨q :: qs, by simp [exportPlots, hq, hqs, except_bind_ok]⟩

lemma exportLayerDict_wf_ok (proj : List Layer) (ld : LayerDict)
    (hwf : layerWF ld) (h : ∀ p ∈ ldPlots ld, sourceIsId p) :
    ∃ ld2, exportLayerDict proj ld = Except.ok ld2 ∧ layerWF ld2 := by
  obtain ⟨h1, h2, h3⟩ := hwf
  obtain ⟨s, hs⟩ := Option.isSome_iff_exists.mp h1
  obtain ⟨m, hm⟩ := Option.isSome_iff_exists.mp h2
  obtain ⟨t, ht⟩ := Option.isSome_iff_exists.mp h3
  have hmem_s : ∀ p ∈ s, p ∈ ldPlots ld := by
    intro p hp; simp [ldPlots, hs, hm, ht, hp]
  have hmem_m : ∀ p ∈ m, p ∈ ldPlots ld := by
    intro p hp; simp [ldPlots, hs, hm, ht, hp]
  have hmem_t : ∀ p ∈ t, p ∈ ldPlots ld := by
    intro p hp; simp [ldPlots, hs, hm, ht, hp]
  obtain ⟨s2, hs2⟩ := exportPlots_id_ok proj s (fun p hp => h p (hmem_s p hp))
  obtain ⟨m2, hm2⟩ := exportPlots_id_ok proj m (fun p hp => h p (hmem_m p hp))
  obtain ⟨t2, ht2⟩ := exportPlots_id_ok proj t (fun p hp => h p (hmem_t p hp))
  refine ⟨{ stratigraphy_config := some s2, log_measures := some m2,
            timeseries := some t2 }, ?_, by simp [layerWF]⟩
  simp [exportLayerDict, getSub, hs, hm, ht, hs2, hm2, ht2, except_bind_ok]

lemma dictSet_mem (c : Config) (k : String) (v : LayerDict)
    (e : String × LayerDict) (he : e ∈ dictSet c k v) :
    e ∈ c ∨ e = (k, v) := by
  unfold dictSet at he
  by_cases hf : (c.find? (fun e => e.1 == k)).isSome = true
  · rw [if_pos hf] at he
    obtain ⟨a, ha, hae⟩ := List.mem_map.mp he
    by_cases hk : a.1 == k
    · right; rw [if_pos hk] at hae; exact hae.symm
    · left; rw [if_neg hk] at hae; exact hae ▸ ha
  · rw [if_neg hf] at he
    rcases List.mem_append.mp he with h1 | h2
    · exact Or.inl h1
    · exact Or.inr (by simpa using h2)

lemma dictSet_configWF (c : Config) (k : String) (v : LayerDict)
    (hc : configWF c) (hv : layerWF v) : configWF (dictSet c k v) := by
  intro e he
  rcases dictSet_mem c k v e he with h1 | h2
  · exact hc e h1
  · rw [h2]; exact hv

lemma exportLoop_wf (proj : List Layer) (c : Config) :
    ∀ acc : Config, configWF c → allSourcesIds c → configWF acc →
    ∃ out, exportLoop proj c acc = Except.ok out ∧ configWF out := by
  induction c with
  | nil => intro acc _ _ hacc; exact ⟨acc, rfl, hacc⟩
  | cons e rest ih =>
    intro acc hwf hids hacc
    obtain ⟨rid, ld⟩ := e
    cases hrl : mapLayer proj rid with
    | none =>
      have := ih acc (fun e he => hwf e (List.mem_cons_of_mem _ he))
        (fun e he => hids e (List.mem_cons_of_mem _ he)) hacc
      simpa [exportLoop, hrl] using this
    | some rl =>
      obtain ⟨ld2, hld2, hld2wf⟩ := exportLayerDict_wf_ok proj ld
        (hwf (rid, ld) (by simp)) (hids (rid, ld) (by simp))
      obtain ⟨out, hout, houtwf⟩ := ih (dictSet acc (rootKey rl) ld2)
        (fun e he => hwf e (List.mem_cons_of_mem _ he))
        (fun e he => hids e (List.mem_cons_of_mem _ he))
        (dictSet_configWF _ _ _ hacc hld2wf)
      exact ⟨out, by simp [exportLoop, hrl, hld2, except_bind_ok, hout],
        houtwf⟩

/-- The layer ids present in a project state. -/
def hasId (st : PState) (i : String) : Prop := i ∈ st.layers.map Layer.id

lemma findAndRename_ids (src nm prov : String) :
    ∀ (layers : List Layer) (r : Layer) (ls : List Layer),
    findAndRename layers src nm prov = some (r, ls) →
    ls.map Layer.id = layers.map Layer.id ∧
      r.id ∈ layers.map Layer.id := by
  intro layers
  induction layers with
  | nil => intro r ls h; simp [findAndRename] at h
  | cons l rest ih =>
    intro r ls h
    by_cases hc : (l.source == src && l.provider == prov) = true
    · simp only [findAndRename, hc, if_true] at h
      have h2 : ({ l with name := nm } : Layer) = r ∧
          ({ l with name := nm } : Layer) :: rest = ls := by
        simpa using h
      obtain ⟨hr, hls⟩ := h2
      subst hr
      subst hls
      constructor
      · simp
      · simp
    · cases hfr : findAndRename rest src nm prov with
      | none => simp [findAndRename, hc, hfr] at h
      | some pr =>
        obtain ⟨r2, rest2⟩ := pr
        have h2 : r2 = r ∧ l :: rest2 = ls := by
          simpa [findAndRename, hc, hfr] using h
        obtain ⟨hids, hmem⟩ := ih r2 rest2 hfr
        obtain ⟨hr, hls⟩ := h2
        subst hr
        subst hls
        constructor
        · simp [hids]
        · simp only [List.map_cons, List.mem_cons]
          exact Or.inr hmem

lemma foc_if_some (st : PState) (src nm prov : String) (ow : Bool)
    (r : Layer) (ls : List Layer)
    (hfr : (if ow then findAndRename st.layers src nm prov else none) =
      some (r, ls)) :
    findAndRename st.layers src nm prov = some (r, ls) := by
  by_cases how : ow = true
  · rw [if_pos how] at hfr; exact hfr
  · rw [if_neg how] at hfr; exact Option.noConfusion hfr

lemma foc_hasId_mono (st : PState) (src nm prov : String) (ow : Bool)
    (i : String) (h : hasId st i) :
    hasId (find_existing_layer_or_create st src nm prov ow).2 i := by
  unfold find_existing_layer_or_create
  cases hfr : (if ow then findAndRename st.layers src nm prov else none) with
  | none =>
    unfold hasId at *
    simp only [List.map_append, List.mem_append]
    exact Or.inl h
  | some pr =>
    obtain ⟨r, ls⟩ := pr
    obtain ⟨hids, _⟩ := findAndRename_ids src nm prov st.layers r ls
      (foc_if_some st src nm prov ow r ls hfr)
    unfold hasId at *
    simpa [hids] using h

lemma foc_result_hasId (st : PState) (src nm prov : String) (ow : Bool) :
    hasId (find_existing_layer_or_create st src nm prov ow).2
      ((find_existing_layer_or_create st src nm prov ow).1.id) := by
  unfold find_existing_layer_or_create
  cases hfr : (if ow then findAndRename st.layers src nm prov else none) with
  | none =>
    unfold hasId
    simp
  | some pr =>
    obtain ⟨r, ls⟩ := pr
    obtain ⟨hids, hmem⟩ := findAndRename_ids src nm prov st.layers r ls
      (foc_if_some st src nm prov ow r ls hfr)
    unfold hasId
    rw [hids]
    exact hmem

lemma importPlots_ok (ps : List PlotDict) :
    ∀ (st : PState) (ow : Bool), (∀ p ∈ ps, sourceIsTriple p) →
    ∃ qs st2, importPlots ps st ow = Except.ok (qs, st2) ∧
      (∀ q ∈ qs, ∃ i, q.source = SourceVal.layerId i ∧ hasId st2 i) ∧
      (∀ i, hasId st i → hasId st2 i) := by
  induction ps with
  | nil => intro st ow _; exact ⟨[], st, rfl, by simp, fun i h => h⟩
  | cons p rest ih =>
    intro st ow h
    obtain ⟨a, b, c, habc⟩ := h p (by simp)
    obtain ⟨qs, st2, hqs, hqs2, hmono⟩ :=
      ih (find_existing_layer_or_create st a b c ow).2 ow
        (fun p hp => h p (List.mem_cons_of_mem _ hp))
    refine ⟨({ p with source := SourceVal.layerId (find_existing_layer_or_create st a b c ow).1.id }) :: qs, st2, ?_, ?_, ?_⟩
    · simp [importPlots, habc, hqs, except_bind_ok]
    · intro q hq
      rcases List.mem_cons.mp hq with h1 | h2
      · refine ⟨(find_existing_layer_or_create st a b c ow).1.id,
          by rw [h1], ?_⟩
        exact hmono _ (foc_result_hasId st a b c ow)
      · exact hqs2 q h2
    · intro i hi
      exact hmono i (foc_hasId_mono st a b c ow i hi)

lemma importLayerDict_ok (ld : LayerDict) (st : PState) (ow : Bool)
    (hwf : layerWF ld) (h : ∀ p ∈ ldPlots ld, sourceIsTriple p) :
    ∃ ld2 st2, importLayerDict ld st ow = Except.ok (ld2, st2) ∧
      layerWF ld2 ∧
      (∀ p ∈ ldPlots ld2, ∃ i, p.source = SourceVal.layerId i ∧
        hasId st2 i) ∧
      (∀ i, hasId st i → hasId st2 i) := by
  obtain ⟨h1, h2, h3⟩ := hwf
  obtain ⟨s, hs⟩ := Option.isSome_iff_exists.mp h1
  obtain ⟨m, hm⟩ := Option.isSome_iff_exists.mp h2
  obtain ⟨t, ht⟩ := Option.isSome_iff_exists.mp h3
  have hmem_s : ∀ p ∈ s, p ∈ ldPlots ld := by
    intro p hp; simp [ldPlots, hs, hm, ht, hp]
  have hmem_m : ∀ p ∈ m, p ∈ ldPlots ld := by
    intro p hp; simp [ldPlots, hs, hm, ht, hp]
  have hmem_t : ∀ p ∈ t, p ∈ ldPlots ld := by
    intro p hp; simp [ldPlots, hs, hm, ht, hp]
  obtain ⟨s2, sts, hs2, hs2id, hs2mono⟩ := importPlots_ok s st ow
    (fun p hp => h p (hmem_s p hp))
  obtain ⟨m2, stm, hm2, hm2id, hm2mono⟩ := importPlots_ok m sts ow
    (fun p hp => h p (hmem_m p hp))
  obtain ⟨t2, stt, ht2, ht2id, ht2mono⟩ := importPlots_ok t stm ow
    (fun p hp => h p (hmem_t p hp))
  refine ⟨{ stratigraphy_config := some s2, log_measures := some m2,
            timeseries := some t2 }, stt, ?_, by simp [layerWF], ?_, ?_⟩
  · simp [importLayerDict, getSub, hs, hm, ht, hs2, hm2, ht2, except_bind_ok]
  · intro p hp
    simp only [ldPlots, Option.getD_some, List.mem_append] at hp
    rcases hp with (hp | hp) | hp
    · obtain ⟨i, hi1, hi2⟩ := hs2id p hp
      exact ⟨i, hi1, ht2mono i (hm2mono i hi2)⟩
    · obtain ⟨i, hi1, hi2⟩ := hm2id p hp
      exact ⟨i, hi1, ht2mono i hi2⟩
    · exact ht2id p hp
  · intro i hi
    exact ht2mono i (hm2mono i (hs2mono i hi))

lemma length_three (l : List (List Char)) (h : l.length = 3) :
    ∃ a b c, l = [a, b, c] := by
  match l, h with
  | [a, b, c], _ => exact ⟨a, b, c, rfl⟩

def accWF (c : Config) : Prop := configWF c ∧ allSourcesIds c

lemma dictSet_accWF (c : Config) (k : String) (v : LayerDict)
    (hc : accWF c) (hv : layerWF v) (hvi : ∀ p ∈ ldPlots v, sourceIsId p) :
    accWF (dictSet c k v) := by
  constructor
  · exact dictSet_configWF c k v hc.1 hv
  · intro e he
    rcases dictSet_mem c k v e he with h1 | h2
    · exact hc.2 e h1
    · rw [h2]; exact hvi

lemma importLoop_ok (entries : Config) :
    ∀ (st : PState) (ow : Bool) (acc : Config), importWF entries →
    accWF acc →
    ∃ out st2, importLoop entries st ow acc = Except.ok (out, st2) ∧
      configWF out ∧ allSourcesIds out := by
  induction entries with
  | nil => intro st ow acc _ hacc; exact ⟨acc, st, rfl, hacc.1, hacc.2⟩
  | cons e rest ih =>
    intro st ow acc hwf hacc
    obtain ⟨rk, ld⟩ := e
    obtain ⟨hsplit, hldwf, htrip⟩ := hwf (rk, ld) (by simp)
    obtain ⟨a, b, c, habc⟩ := length_three _ hsplit
    obtain ⟨ld2, st3, hld2, hld2wf, hld2id, hld2mono⟩ := importLayerDict_ok
      ld (find_existing_layer_or_create st (String.mk a) (String.mk b)
        (String.mk c) ow).2 ow hldwf htrip
    obtain ⟨out, st4, hout, houtwf, houtid⟩ := ih st3 ow
      (dictSet acc (find_existing_layer_or_create st (String.mk a)
        (String.mk b) (String.mk c) ow).1.id ld2)
      (fun e he => hwf e (List.mem_cons_of_mem _ he))
      (dictSet_accWF _ _ _ hacc hld2wf
        (fun p hp => (hld2id p hp).imp (fun i hi => hi.1)))
    refine ⟨out, st4, ?_, houtwf, houtid⟩
    simp [importLoop, habc, hld2, except_bind_ok, hout]

lemma removeFromLayerDict_ok (ld : LayerDict) (lid : String)
    (h : layerWF ld) :
    ∃ ld2, removeFromLayerDict ld lid = Except.ok ld2 ∧ layerWF ld2 := by
  refine ⟨_, removeFromLayerDict_wf ld lid h, ?_⟩
  simp [filterLayerDict, layerWF]

lemma remove_wf (c : Config) (lid : String) (h : configWF c) :
    ∃ out, remove_layer_from_config c lid = Except.ok out ∧
      configWF out := by
  induction c with
  | nil => exact ⟨[], rfl, by intro e he; cases he⟩
  | cons e rest ih =>
    obtain ⟨k, ld⟩ := e
    by_cases hk : lid = k
    · refine ⟨(k, ld) :: rest, ?_, h⟩
      simp [remove_layer_from_config, hk]
    · obtain ⟨ld2, hld2, hld2wf⟩ := removeFromLayerDict_ok ld lid
        (h (k, ld) (by simp))
      obtain ⟨out, hout, houtwf⟩ := ih
        (fun e he => h e (List.mem_cons_of_mem _ he))
      refine ⟨(k, ld2) :: out, ?_, ?_⟩
      · simp [remove_layer_from_config, hk, hld2, hout, except_bind_ok]
      · intro e he
        rcases List.mem_cons.mp he with h1 | h2
        · rw [h1]; exact hld2wf
        · exact houtwf e h2

/-- C7: the configuration is a mapping from root-layer key to a record of
the three plot lists; `LayerConfig._wrap` treats a missing list key as an
empty list, and `export_config`, `import_config` and
`remove_layer_from_config` traverse exactly these three lists per record
and preserve the shape. -/
theorem c7_tree_shape_preserved (proj : List Layer) (st : PState)
    (ow : Bool) (lid : String) (ld : LayerDict) (c : Config) :
    (ld.stratigraphy_config = none → wrap_stratigraphy_plots ld = []) ∧
    (ld.log_measures = none → wrap_log_plots ld = []) ∧
    (ld.timeseries = none → wrap_timeseries ld = []) ∧
    (configWF c → allSourcesIds c →
      ∃ out, export_config proj c = Except.ok out ∧ configWF out) ∧
    (importWF c →
      ∃ out st2, import_config c st ow = Except.ok (out, st2) ∧
        configWF out ∧ allSourcesIds out) ∧
    (configWF c →
      ∃ out, remove_layer_from_config c lid = Except.ok out ∧
        configWF out) := by
  refine ⟨?_, ?_, ?_, ?_, ?_, ?_⟩
  · intro h; simp [wrap_stratigraphy_plots, h]
  · intro h; simp [wrap_log_plots, h]
  · intro h; simp [wrap_timeseries, h]
  · intro hwf hids
    exact exportLoop_wf proj c [] hwf hids (by intro e he; cases he)
  · intro hwf
    exact importLoop_ok c st ow [] hwf
      ⟨(by intro e he; cases he), (by intro e he; cases he)⟩
  · exact remove_wf c lid

/-- Witness for C7 at concrete inputs. -/
theorem c7_witness :
    wrap_stratigraphy_plots
      { stratigraphy_config := none, log_measures := some [],
        timeseries := some [] } = [] ∧
    (∃ out st2, import_config
        [("s#n#p", { stratigraphy_config :=
                       some [{ source := SourceVal.triple "s2" "n2" "p2" }],
                     log_measures := some [], timeseries := some [] })]
        ⟨[], 0⟩ false = Except.ok (out, st2) ∧
      configWF out ∧ allSourcesIds out) :=
  ⟨(c7_tree_shape_preserved [] ⟨[], 0⟩ false "x"
      { stratigraphy_config := none, log_measures := some [],
        timeseries := some [] } []).1 rfl,
   (c7_tree_shape_preserved [] ⟨[], 0⟩ false "x"
      { stratigraphy_config := none, log_measures := some [],
        timeseries := some [] }
      [("s#n#p", { stratigraphy_config :=
                     some [{ source := SourceVal.triple "s2" "n2" "p2" }],
                   log_measures := some [], timeseries := some [] })]
      ).2.2.2.2.1 (by decide)⟩

/-! ### C2: import resolves or creates a layer per portable triple -/

lemma findAndRename_found (src nm prov : String) :
    ∀ layers : List Layer,
    (∃ l ∈ layers, l.source = src ∧ l.provider = prov) →
    ∃ r ls, findAndRename layers src nm prov = some (r, ls) ∧
      r.name = nm ∧ r.source = src ∧ r.provider = prov ∧
      (∃ l0 ∈ layers, l0.source = src ∧ l0.provider = prov ∧
        l0.id = r.id) ∧
      ls.map Layer.id = layers.map Layer.id ∧ r ∈ ls := by
  intro layers
  induction layers with
  | nil =>
    rintro ⟨l, hl, _⟩
    cases hl
  | cons l rest ih =>
    intro h
    by_cases hc : (l.source == src && l.provider == prov) = true
    · have hc2 : l.source = src ∧ l.provider = prov := by
        simpa using hc
      refine ⟨{ l with name := nm }, ({ l with name := nm } : Layer) :: rest,
        by simp [findAndRename, hc], rfl, hc2.1, hc2.2,
        ⟨l, by simp, hc2.1, hc2.2, rfl⟩, by simp, by simp⟩
    · have hrest : ∃ l2 ∈ rest, l2.source = src ∧ l2.provider = prov := by
        obtain ⟨l2, hl2, h2⟩ := h
        rcases List.mem_cons.mp hl2 with h1 | h1
        · exfalso
          apply hc
          subst h1
          simp [h2.1, h2.2]
        · exact ⟨l2, h1, h2⟩
      obtain ⟨r, ls, hfr, hnm, hsrc, hprov, hl0, hids, hrin⟩ := ih hrest
      refine ⟨r, l :: ls, by simp [findAndRename, hc, hfr], hnm, hsrc,
        hprov, ?_, by simp [hids], by simp [hrin]⟩
      obtain ⟨l0, hl0m, hl0p⟩ := hl0
      exact ⟨l0, List.mem_cons_of_mem _ hl0m, hl0p⟩

lemma findAndRename_none (src nm prov : String) :
    ∀ layers : List Layer,
    (∀ l ∈ layers, ¬(l.source = src ∧ l.provider = prov)) →
    findAndRename layers src nm prov = none := by
  intro layers
  induction layers with
  | nil => intro _; rfl
  | cons l rest ih =>
    intro h
    have hc : ¬((l.source == src && l.provider == prov) = true) := by
      intro hcc
      exact h l (by simp) (by simpa using hcc)
    simp [findAndRename, hc, ih (fun l2 h2 => h l2 (List.mem_cons_of_mem _ h2))]

/-- The per-entry property C2 claims of the returned tree: the root key and
every plot source are ids of layers present in the final project. -/
def entryResolved (st : PState) (e : String × LayerDict) : Prop :=
  hasId st e.1 ∧
    ∀ p ∈ ldPlots e.2, ∃ i, p.source = SourceVal.layerId i ∧ hasId st i

lemma importLoop_ids (entries : Config) :
    ∀ (st : PState) (ow : Bool) (acc : Config), importWF entries →
    (∀ e ∈ acc, entryResolved st e) →
    ∃ out st2, importLoop entries st ow acc = Except.ok (out, st2) ∧
      ∀ e ∈ out, entryResolved st2 e := by
  induction entries with
  | nil => intro st ow acc _ hacc; exact ⟨acc, st, rfl, hacc⟩
  | cons e rest ih =>
    intro st ow acc hwf hacc
    obtain ⟨rk, ld⟩ := e
    obtain ⟨hsplit, hldwf, htrip⟩ := hwf (rk, ld) (by simp)
    obtain ⟨a, b, c, habc⟩ := length_three _ hsplit
    obtain ⟨ld2, st3, hld2, hld2wf, hld2id, hld2mono⟩ := importLayerDict_ok
      ld (find_existing_layer_or_create st (String.mk a) (String.mk b)
        (String.mk c) ow).2 ow hldwf htrip
    have hacc3 : ∀ e ∈ dictSet acc (find_existing_layer_or_create st
        (String.mk a) (String.mk b) (String.mk c) ow).1.id ld2,
        entryResolved st3 e := by
      intro e he
      rcases dictSet_mem _ _ _ e he with h1 | h2
      · obtain ⟨hk, hp⟩ := hacc e h1
        refine ⟨hld2mono _ (foc_hasId_mono st (String.mk a) (String.mk b)
          (String.mk c) ow _ hk), ?_⟩
        intro p hp2
        obtain ⟨i, hi1, hi2⟩ := hp p hp2
        exact ⟨i, hi1, hld2mono i (foc_hasId_mono st (String.mk a)
          (String.mk b) (String.mk c) ow i hi2)⟩
      · rw [h2]
        refine ⟨hld2mono _ (foc_result_hasId st (String.mk a) (String.mk b)
          (String.mk c) ow), hld2id⟩
    obtain ⟨out, st4, hout, houtres⟩ := ih st3 ow _
      (fun e he => hwf e (List.mem_cons_of_mem _ he)) hacc3
    refine ⟨out, st4, ?_, houtres⟩
    simp [importLoop, habc, hld2, except_bind_ok, hout]

/-- Claim-side relation: one plot's portable triple is resolved or
created from the current project state by `find_existing_layer_or_create`
and exactly that layer's id replaces the plot's source. -/
def plotImported (ow : Bool) (st : PState) (p q : PlotDict)
    (st2 : PState) : Prop :=
  ∃ a b c, p.source = SourceVal.triple a b c ∧
    q = { p with source := SourceVal.layerId (find_existing_layer_or_create st a b c ow).1.id } ∧
    st2 = (find_existing_layer_or_create st a b c ow).2

/-- Claim-side relation: the plots of one list, each resolved or created
in order, with the project state threaded through. -/
inductive plotsImported (ow : Bool) :
    PState → List PlotDict → List PlotDict → PState → Prop where
  | nil (st : PState) : plotsImported ow st [] [] st
  | cons {st stMid st2 : PState} {p q : PlotDict}
      {ps qs : List PlotDict} : plotImported ow st p q stMid →
      plotsImported ow stMid ps qs st2 →
      plotsImported ow st (p :: ps) (q :: qs) st2

/-- Claim-side relation lifted to one root entry's dictionary: the three
plot lists in subkey order. -/
def ldImported (ow : Bool) (st : PState) (ld ld2 : LayerDict)
    (st2 : PState) : Prop :=
  ∃ s m t, ld.stratigraphy_config = some s ∧ ld.log_measures = some m ∧
    ld.timeseries = some t ∧
    ∃ s2 m2 t2 stA stB, ld2 = ⟨some s2, some m2, some t2⟩ ∧
      plotsImported ow st s s2 stA ∧ plotsImported ow stA m m2 stB ∧
      plotsImported ow stB t t2 st2

/-- Claim-side relation for one root entry: the root key splits into the
root triple, the layer resolved or created for that triple supplies the
entry's new key, and the entry's plots are resolved from the state that
root resolution left behind. -/
def entryImported (ow : Bool) (st : PState) (e o : String × LayerDict)
    (st2 : PState) : Prop :=
  ∃ a b c, splitHash e.1.data = [a, b, c] ∧
    o.1 = (find_existing_layer_or_create st (String.mk a) (String.mk b)
      (String.mk c) ow).1.id ∧
    ldImported ow (find_existing_layer_or_create st (String.mk a)
      (String.mk b) (String.mk c) ow).2 e.2 o.2 st2

/-- Claim-side relation for the whole file: entry-by-entry correspondence
between the read tree and the substituted tree, state threaded in
iteration order. -/
inductive configImported (ow : Bool) :
    PState → Config → Config → PState → Prop where
  | nil (st : PState) : configImported ow st [] [] st
  | cons {st stMid st2 : PState} {e o : String × LayerDict}
      {es os : Config} : entryImported ow st e o stMid →
      configImported ow stMid es os st2 →
      configImported ow st (e :: es) (o :: os) st2

lemma importPlots_rel (ps : List PlotDict) :
    ∀ (st : PState) (ow : Bool), (∀ p ∈ ps, sourceIsTriple p) →
    ∃ qs st2, importPlots ps st ow = Except.ok (qs, st2) ∧
      plotsImported ow st ps qs st2 := by
  induction ps with
  | nil => intro st ow _; exact ⟨[], st, rfl, plotsImported.nil st⟩
  | cons p rest ih =>
    intro st ow h
    obtain ⟨a, b, c, habc⟩ := h p (by simp)
    obtain ⟨qs, st2, hqs, hrel⟩ :=
      ih (find_existing_layer_or_create st a b c ow).2 ow
        (fun p hp => h p (List.mem_cons_of_mem _ hp))
    refine ⟨({ p with source := SourceVal.layerId (find_existing_layer_or_create st a b c ow).1.id }) :: qs, st2, ?_, ?_⟩
    · simp [importPlots, habc, hqs, except_bind_ok]
    · refine plotsImported.cons ?_ hrel
      exact ⟨a, b, c, habc, rfl, rfl⟩

lemma importLayerDict_rel (ld : LayerDict) (st : PState) (ow : Bool)
    (hwf : layerWF ld) (h : ∀ p ∈ ldPlots ld, sourceIsTriple p) :
    ∃ ld2 st2, importLayerDict ld st ow = Except.ok (ld2, st2) ∧
      ldImported ow st ld ld2 st2 := by
  obtain ⟨h1, h2, h3⟩ := hwf
  obtain ⟨s, hs⟩ := Option.isSome_iff_exists.mp h1
  obtain ⟨m, hm⟩ := Option.isSome_iff_exists.mp h2
  obtain ⟨t, ht⟩ := Option.isSome_iff_exists.mp h3
  have hmem_s : ∀ p ∈ s, p ∈ ldPlots ld := by
    intro p hp; simp [ldPlots, hs, hm, ht, hp]
  have hmem_m : ∀ p ∈ m, p ∈ ldPlots ld := by
    intro p hp; simp [ldPlots, hs, hm, ht, hp]
  have hmem_t : ∀ p ∈ t, p ∈ ldPlots ld := by
    intro p hp; simp [ldPlots, hs, hm, ht, hp]
  obtain ⟨s2, sts, hs2, hs2rel⟩ := importPlots_rel s st ow
    (fun p hp => h p (hmem_s p hp))
  obtain ⟨m2, stm, hm2, hm2rel⟩ := importPlots_rel m sts ow
    (fun p hp => h p (hmem_m p hp))
  obtain ⟨t2, stt, ht2, ht2rel⟩ := importPlots_rel t stm ow
    (fun p hp => h p (hmem_t p hp))
  refine ⟨{ stratigraphy_config := some s2, log_measures := some m2,
            timeseries := some t2 }, stt, ?_,
    s, m, t, hs, hm, ht, s2, m2, t2, sts, stm, rfl, hs2rel, hm2rel,
    ht2rel⟩
  simp [importLayerDict, getSub, hs, hm, ht, hs2, hm2, ht2, except_bind_ok]

lemma importLoop_rel (entries : Config) :
    ∀ (st : PState) (ow : Bool) (acc : Config), importWF entries →
    ∃ out st2, configImported ow st entries out st2 ∧
      importLoop entries st ow acc =
        Except.ok (out.foldl (fun a e => dictSet a e.1 e.2) acc, st2) := by
  induction entries with
  | nil =>
    intro st ow acc _
    exact ⟨[], st, configImported.nil st, rfl⟩
  | cons e rest ih =>
    intro st ow acc hwf
    obtain ⟨rk, ld⟩ := e
    obtain ⟨hsplit, hldwf, htrip⟩ := hwf (rk, ld) (by simp)
    obtain ⟨a, b, c, habc⟩ := length_three _ hsplit
    obtain ⟨ld2, st3, hld2, hldrel⟩ := importLayerDict_rel ld
      (find_existing_layer_or_create st (String.mk a) (String.mk b)
        (String.mk c) ow).2 ow hldwf htrip
    obtain ⟨out, st4, hrel, hout⟩ := ih st3 ow
      (dictSet acc (find_existing_layer_or_create st (String.mk a)
        (String.mk b) (String.mk c) ow).1.id ld2)
      (fun e he => hwf e (List.mem_cons_of_mem _ he))
    refine ⟨((find_existing_layer_or_create st (String.mk a) (String.mk b)
      (String.mk c) ow).1.id, ld2) :: out, st4, ?_, ?_⟩
    · refine configImported.cons ?_ hrel
      exact ⟨a, b, c, habc, rfl, hldrel⟩
    · rw [List.foldl_cons]
      simp [importLoop, habc, hld2, except_bind_ok, hout]

lemma foldl_dictSet_of_nodup :
    ∀ (out acc : Config),
    (∀ e ∈ out, ∀ x ∈ acc, x.1 ≠ e.1) →
    (out.map Prod.fst).Nodup →
    out.foldl (fun a e => dictSet a e.1 e.2) acc = acc ++ out := by
  intro out
  induction out with
  | nil => intro acc _ _; simp
  | cons e rest ih =>
    intro acc hdisj hnd
    have hfresh : dictSet acc e.1 e.2 = acc ++ [(e.1, e.2)] :=
      dictSet_fresh acc e.1 e.2 (fun x hx => hdisj e (by simp) x hx)
    have hnd1 : e.1 ∉ rest.map Prod.fst ∧ (rest.map Prod.fst).Nodup := by
      rw [List.map_cons] at hnd
      exact List.nodup_cons.mp hnd
    have hdisj2 : ∀ e2 ∈ rest, ∀ x ∈ acc ++ [(e.1, e.2)], x.1 ≠ e2.1 := by
      intro e2 he2 x hx
      rcases List.mem_append.mp hx with hx | hx
      · exact hdisj e2 (List.mem_cons_of_mem _ he2) x hx
      · have hxe : x = (e.1, e.2) := by simpa using hx
        subst hxe
        intro hcon
        apply hnd1.1
        rw [show e.1 = e2.1 from hcon]
        exact List.mem_map_of_mem Prod.fst he2
    rw [List.foldl_cons, hfresh, ih (acc ++ [(e.1, e.2)]) hdisj2 hnd1.2]
    simp

/-- C2: `find_existing_layer_or_create` reuses and renames an existing
layer exactly when overwrite is requested and a layer with the triple's
source and provider exists (otherwise it creates a new layer and adds it
to the project); `import_config` resolves or creates a layer for each
portable triple in iteration order and substitutes exactly that layer's
id back into the tree, as the plot's source value and as the root key
(`configImported`); the returned dict is that correspondence list under
Python dict-assignment semantics, and equals it whenever the resolved
root ids are distinct; every key and source of the returned tree denotes
a layer of the final project. -/
theorem c2_import_resolves_or_creates (st : PState)
    (src nm prov : String) (ow : Bool) (cfg : Config) :
    ((∃ l ∈ st.layers, l.source = src ∧ l.provider = prov) →
      (find_existing_layer_or_create st src nm prov true).1.name = nm ∧
      (find_existing_layer_or_create st src nm prov true).1.source = src ∧
      (find_existing_layer_or_create st src nm prov true).1.provider =
        prov ∧
      (∃ l0 ∈ st.layers, l0.source = src ∧ l0.provider = prov ∧
        l0.id = (find_existing_layer_or_create st src nm prov true).1.id) ∧
      (find_existing_layer_or_create st src nm prov true).2.layers.map
        Layer.id = st.layers.map Layer.id ∧
      (find_existing_layer_or_create st src nm prov true).1 ∈
        (find_existing_layer_or_create st src nm prov true).2.layers) ∧
    ((ow = false ∨ ¬∃ l ∈ st.layers, l.source = src ∧ l.provider = prov) →
      (find_existing_layer_or_create st src nm prov ow).1 =
        ⟨freshLayerId st, src, nm, prov⟩ ∧
      (find_existing_layer_or_create st src nm prov ow).2.layers =
        st.layers ++ [⟨freshLayerId st, src, nm, prov⟩]) ∧
    (importWF cfg →
      ∃ out st2, configImported ow st cfg out st2 ∧
        import_config cfg st ow =
          Except.ok (out.foldl (fun a e => dictSet a e.1 e.2) [], st2) ∧
        ((out.map Prod.fst).Nodup →
          out.foldl (fun a e => dictSet a e.1 e.2) [] = out) ∧
        ∀ e ∈ out.foldl (fun a e => dictSet a e.1 e.2) [],
          entryResolved st2 e) := by
  refine ⟨?_, ?_, ?_⟩
  · intro h
    obtain ⟨r, ls, hfr, hnm, hsrc, hprov, hl0, hids, hrin⟩ :=
      findAndRename_found src nm prov st.layers h
    have hfoc : find_existing_layer_or_create st src nm prov true =
        (r, { st with layers := ls }) := by
      unfold find_existing_layer_or_create
      simp [hfr]
    rw [hfoc]
    exact ⟨hnm, hsrc, hprov, hl0, hids, hrin⟩
  · intro h
    have hnone : (if ow then findAndRename st.layers src nm prov
        else none) = none := by
      rcases h with h | h
      · rw [h]; rfl
      · push_neg at h
        have := findAndRename_none src nm prov st.layers
          (fun l hl => by
            intro hcon
            exact absurd hcon.2 (h l hl hcon.1))
        by_cases how : ow = true
        · rw [if_pos how]; exact this
        · rw [if_neg how]
    unfold find_existing_layer_or_create
    rw [hnone]
    exact ⟨rfl, rfl⟩
  · intro hwf
    obtain ⟨out, st2, hrel, hok⟩ := importLoop_rel cfg st ow [] hwf
    refine ⟨out, st2, hrel, hok, ?_, ?_⟩
    · intro hnd
      have h0 := foldl_dictSet_of_nodup out []
        (by intro e _ x hx; cases hx) hnd
      simpa using h0
    · obtain ⟨out2, st2b, hok2, hres2⟩ :=
        importLoop_ids cfg st ow [] hwf (by intro e he; cases he)
      have heq : (Except.ok (out.foldl (fun a e => dictSet a e.1 e.2) [],
          st2) : Except String (Config × PState)) =
          Except.ok (out2, st2b) := by
        rw [← hok]
        exact hok2
      injection heq with hpair
      injection hpair with h1 h2
      intro e he
      rw [h2]
      exact hres2 e (h1 ▸ he)

/-- Witness for C2: reuse-and-rename at a concrete project. -/
theorem c2_witness :
    (find_existing_layer_or_create
      ⟨[⟨"id1", "s", "oldname", "p"⟩], 0⟩ "s" "newname" "p" true).1.name =
        "newname" ∧
    (find_existing_layer_or_create
      ⟨[⟨"id1", "s", "oldname", "p"⟩], 0⟩ "s" "newname" "p"
        true).2.layers.map Layer.id =
      ([⟨"id1", "s", "oldname", "p"⟩] : List Layer).map Layer.id :=
  ⟨((c2_import_resolves_or_creates ⟨[⟨"id1", "s", "oldname", "p"⟩], 0⟩
      "s" "newname" "p" true []).1 (by decide)).1,
   ((c2_import_resolves_or_creates ⟨[⟨"id1", "s", "oldname", "p"⟩], 0⟩
      "s" "newname" "p" true []).1 (by decide)).2.2.2.2.1⟩

/-! ### C10: export_config never modifies its argument

Python dictionaries are mutable objects; `export_config` mutates plot
dictionaries in place (`layer_cfg["source"] = ...`) but only after taking a
deep copy of its argument (line 197).  To express that, the plot
dictionaries are put in an explicit store addressed by indices; the
caller's configuration holds references into the store. -/

/-- A layer dictionary whose plot lists hold references into the store. -/
structure HLayerDict where
  stratigraphy_config : Option (List Nat) := none
  log_measures : Option (List Nat) := none
  timeseries : Option (List Nat) := none

/-- The caller's configuration: root keys with referenced plot lists. -/
abbrev HConfig := List (String × HLayerDict)

/-- The store of plot dictionary objects. -/
structure Heap where
  cells : List PlotDict

def readCell (h : Heap) (r : Nat) : PlotDict := h.cells.getD r default

def writeCell (h : Heap) (r : Nat) (p : PlotDict) : Heap := ⟨h.cells.set r p⟩

/-- `deepcopy` of one plot list: fresh cells appended at the end of the
store, one per plot dictionary. -/
def copyRefs (h : Heap) (rs : List Nat) : Heap × List Nat :=
  match rs with
  | [] => (h, [])
  | r :: rest =>
    let fresh := h.cells.length
    let h2 : Heap := ⟨h.cells ++ [readCell h r]⟩
    let pr := copyRefs h2 rest
    (pr.1, fresh :: pr.2)

def copyOptRefs (h : Heap) (o : Option (List Nat)) :
    Heap × Option (List Nat) :=
  match o with
  | none => (h, none)
  | some rs =>
    let pr := copyRefs h rs
    (pr.1, some pr.2)

def copyLayerDict (h : Heap) (ld : HLayerDict) : Heap × HLayerDict :=
  let s := copyOptRefs h ld.stratigraphy_config
  let m := copyOptRefs s.1 ld.log_measures
  let t := copyOptRefs m.1 ld.timeseries
  (t.1, ⟨s.2, m.2, t.2⟩)

/-- `main_config = deepcopy(main_config)` (line 197). -/
def deepcopyConfig (h : Heap) (c : HConfig) : Heap × HConfig :=
  match c with
  | [] => (h, [])
  | (k, ld) :: rest =>
    let pr := copyLayerDict h ld
    let pr2 := deepcopyConfig pr.1 rest
    (pr2.1, (k, pr.2) :: pr2.2)

/-- The in-place source substitution (lines 210-219) on the store. -/
def exportPlotH (proj : List Layer) (h : Heap) (r : Nat) :
    Except String Heap :=
  let p := readCell h r
  match p.source with
  | SourceVal.triple _ _ _ => Except.error "TypeError"
  | SourceVal.layerId sid =>
    match mapLayer proj sid with
    | none => Except.ok h
    | some source =>
      Except.ok (writeCell h r { p with
        source := SourceVal.triple source.source source.name
          source.provider })

def exportPlotsH (proj : List Layer) (h : Heap) (rs : List Nat) :
    Except String Heap :=
  match rs with
  | [] => Except.ok h
  | r :: rest => do
    let h2 ← exportPlotH proj h r
    exportPlotsH proj h2 rest

def getSubRefs (o : Option (List Nat)) : Except String (List Nat) :=
  match o with
  | none => Except.error "KeyError"
  | some rs => Except.ok rs

def exportLayerDictH (proj : List Layer) (h : Heap) (ld : HLayerDict) :
    Except String Heap := do
  let s ← getSubRefs ld.stratigraphy_config
  let h2 ← exportPlotsH proj h s
  let m ← getSubRefs ld.log_measures
  let h3 ← exportPlotsH proj h2 m
  let t ← getSubRefs ld.timeseries
  exportPlotsH proj h3 t

def dictSetH (c : List (String × HLayerDict)) (k : String)
    (v : HLayerDict) : List (String × HLayerDict) :=
  if (c.find? (fun e => e.1 == k)).isSome then
    c.map (fun e => if e.1 == k then (k, v) else e)
  else
    c ++ [(k, v)]

def exportLoopH (proj : List Layer) (h : Heap) (entries : HConfig)
    (acc : List (String × HLayerDict)) :
    Except String (Heap × List (String × HLayerDict)) :=
  match entries with
  | [] => Except.ok (h, acc)
  | (rid, cfg) :: rest =>
    match mapLayer proj rid with
    | none => exportLoopH proj h rest acc
    | some root_layer => do
      let h2 ← exportLayerDictH proj h cfg
      exportLoopH proj h2 rest (dictSetH acc (rootKey root_layer) cfg)

def readPlots (h : Heap) (rs : List Nat) : List PlotDict :=
  rs.map (readCell h)

def readLayerDict (h : Heap) (ld : HLayerDict) : LayerDict :=
  ⟨ld.stratigraphy_config.map (readPlots h),
   ld.log_measures.map (readPlots h),
   ld.timeseries.map (readPlots h)⟩

/-- `export_config` on the store model: deep-copy the argument, run the
substitution loop on the copy, serialize the content of the copied
cells. -/
def export_config_heap (proj : List Layer) (h : Heap)
    (main_config : HConfig) : Except String (Heap × Config) := do
  let pr := deepcopyConfig h main_config
  let r ← exportLoopH proj pr.1 pr.2 []
  Except.ok (r.1, r.2.map (fun e => (e.1, readLayerDict r.1 e.2)))

/-- All references of one layer dictionary. -/
def hlRefs (ld : HLayerDict) : List Nat :=
  ld.stratigraphy_config.getD [] ++ ld.log_measures.getD [] ++
    ld.timeseries.getD []

/-- All references of a configuration. -/
def hcRefs (c : HConfig) : List Nat :=
  (c.map (fun e => hlRefs e.2)).flatten

/-- One store extends another by newly allocated cells. -/
def heapExtends (h h2 : Heap) : Prop := ∃ ext, h2.cells = h.cells ++ ext

/-- The first `n` cells agree. -/
def prefKept (n : Nat) (h h2 : Heap) : Prop :=
  ∀ i, i < n → h2.cells[i]? = h.cells[i]?

lemma heapExtends_rfl (h : Heap) : heapExtends h h := ⟨[], by simp⟩

lemma heapExtends_trans {h1 h2 h3 : Heap} (a : heapExtends h1 h2)
    (b : heapExtends h2 h3) : heapExtends h1 h3 := by
  obtain ⟨e1, he1⟩ := a
  obtain ⟨e2, he2⟩ := b
  exact ⟨e1 ++ e2, by rw [he2, he1, List.append_assoc]⟩

lemma heapExtends_len {h1 h2 : Heap} (a : heapExtends h1 h2) :
    h1.cells.length ≤ h2.cells.length := by
  obtain ⟨e1, he1⟩ := a
  simp [he1]

lemma prefKept_rfl (n : Nat) (h : Heap) : prefKept n h h := fun _ _ => rfl

lemma prefKept_trans {n : Nat} {h1 h2 h3 : Heap} (a : prefKept n h1 h2)
    (b : prefKept n h2 h3) : prefKept n h1 h3 :=
  fun i hi => (b i hi).trans (a i hi)

lemma heapExtends_prefKept {h1 h2 : Heap} (a : heapExtends h1 h2)
    {n : Nat} (hn : n ≤ h1.cells.length) : prefKept n h1 h2 := by
  obtain ⟨e1, he1⟩ := a
  intro i hi
  rw [he1, List.getElem?_append, if_pos (lt_of_lt_of_le hi hn)]

lemma copyRefs_spec (rs : List Nat) :
    ∀ h : Heap, heapExtends h (copyRefs h rs).1 ∧
      ∀ r ∈ (copyRefs h rs).2, h.cells.length ≤ r := by
  induction rs with
  | nil => intro h; exact ⟨heapExtends_rfl h, by simp [copyRefs]⟩
  | cons r rest ih =>
    intro h
    obtain ⟨hext, hfr⟩ := ih ⟨h.cells ++ [readCell h r]⟩
    constructor
    · refine heapExtends_trans ⟨[readCell h r], rfl⟩ ?_
      simpa [copyRefs] using hext
    · intro x hx
      simp only [copyRefs, List.mem_cons] at hx
      rcases hx with hx | hx
      · omega
      · have := hfr x hx
        simp only [List.length_append, List.length_singleton] at this
        omega

lemma copyOptRefs_spec (h : Heap) (o : Option (List Nat)) :
    heapExtends h (copyOptRefs h o).1 ∧
      ∀ r ∈ (copyOptRefs h o).2.getD [], h.cells.length ≤ r := by
  cases o with
  | none => exact ⟨heapExtends_rfl h, by simp [copyOptRefs]⟩
  | some rs =>
    obtain ⟨hext, hfr⟩ := copyRefs_spec rs h
    exact ⟨by simpa [copyOptRefs] using hext,
      by simpa [copyOptRefs] using hfr⟩

lemma copyLayerDict_spec (h : Heap) (ld : HLayerDict) :
    heapExtends h (copyLayerDict h ld).1 ∧
      ∀ r ∈ hlRefs (copyLayerDict h ld).2, h.cells.length ≤ r := by
  obtain ⟨hs, hsr⟩ := copyOptRefs_spec h ld.stratigraphy_config
  obtain ⟨hm, hmr⟩ := copyOptRefs_spec (copyOptRefs h
    ld.stratigraphy_config).1 ld.log_measures
  obtain ⟨ht, htr⟩ := copyOptRefs_spec (copyOptRefs (copyOptRefs h
    ld.stratigraphy_config).1 ld.log_measures).1 ld.timeseries
  have hlen1 := heapExtends_len hs
  have hlen2 := heapExtends_len hm
  constructor
  · exact heapExtends_trans hs (heapExtends_trans hm ht)
  · intro r hr
    simp only [copyLayerDict, hlRefs, List.mem_append] at hr
    rcases hr with (hr | hr) | hr
    · exact hsr r hr
    · exact le_trans hlen1 (hmr r hr)
    · exact le_trans hlen1 (le_trans hlen2 (htr r hr))

lemma deepcopyConfig_spec (c : HConfig) :
    ∀ h : Heap, heapExtends h (deepcopyConfig h c).1 ∧
      ∀ r ∈ hcRefs (deepcopyConfig h c).2, h.cells.length ≤ r := by
  induction c with
  | nil => intro h; exact ⟨heapExtends_rfl h, by simp [deepcopyConfig, hcRefs]⟩
  | cons e rest ih =>
    intro h
    obtain ⟨k, ld⟩ := e
    obtain ⟨h1ext, h1fr⟩ := copyLayerDict_spec h ld
    obtain ⟨h2ext, h2fr⟩ := ih (copyLayerDict h ld).1
    have hlen1 := heapExtends_len h1ext
    constructor
    · exact heapExtends_trans h1ext h2ext
    · intro r hr
      simp only [deepcopyConfig, hcRefs, List.map_cons, List.flatten,
        List.mem_append] at hr
      rcases hr with hr | hr
      · exact h1fr r hr
      · exact le_trans hlen1 (h2fr r (by simpa [hcRefs] using hr))

lemma writeCell_prefKept (n : Nat) (h : Heap) (r : Nat) (p : PlotDict)
    (hr : n ≤ r) : prefKept n h (writeCell h r p) := by
  intro i hi
  show (h.cells.set r p)[i]? = h.cells[i]?
  rw [List.getElem?_set]
  rw [if_neg (by omega)]

lemma exportPlotH_prefKept (proj : List Layer) (n : Nat) (h h2 : Heap)
    (r : Nat) (hr : n ≤ r) (hok : exportPlotH proj h r = Except.ok h2) :
    prefKept n h h2 := by
  simp only [exportPlotH] at hok
  cases hsv : (readCell h r).source with
  | triple a b c =>
    simp only [hsv] at hok
    exact Except.noConfusion hok
  | layerId sid =>
    simp only [hsv] at hok
    cases hml : mapLayer proj sid with
    | none =>
      simp only [hml] at hok
      injection hok with he
      subst he
      exact prefKept_rfl n h
    | some l =>
      simp only [hml] at hok
      injection hok with he
      subst he
      exact writeCell_prefKept n h r _ hr

lemma exportPlotsH_prefKept (proj : List Layer) (n : Nat)
    (rs : List Nat) :
    ∀ h h2 : Heap, (∀ r ∈ rs, n ≤ r) →
    exportPlotsH proj h rs = Except.ok h2 → prefKept n h h2 := by
  induction rs with
  | nil =>
    intro h h2 _ hok
    injection hok with he
    subst he
    exact prefKept_rfl n h
  | cons r rest ih =>
    intro h h2 hrs hok
    cases hstep : exportPlotH proj h r with
    | error e => simp [exportPlotsH, hstep, except_bind_error] at hok
    | ok h1 =>
      simp only [exportPlotsH, hstep, except_bind_ok] at hok
      exact prefKept_trans
        (exportPlotH_prefKept proj n h h1 r (hrs r (by simp)) hstep)
        (ih h1 h2 (fun r2 hr2 => hrs r2 (List.mem_cons_of_mem _ hr2)) hok)

lemma exportLayerDictH_prefKept (proj : List Layer) (n : Nat)
    (ld : HLayerDict) (h h2 : Heap) (hrefs : ∀ r ∈ hlRefs ld, n ≤ r)
    (hok : exportLayerDictH proj h ld = Except.ok h2) :
    prefKept n h h2 := by
  cases hs : ld.stratigraphy_config with
  | none =>
    simp [exportLayerDictH, getSubRefs, hs, except_bind_error] at hok
  | some s =>
  cases hm : ld.log_measures with
  | none =>
    cases hstep1 : exportPlotsH proj h s with
    | error e =>
      simp [exportLayerDictH, getSubRefs, hs, hm, hstep1,
        except_bind_ok, except_bind_error] at hok
    | ok hh1 =>
      simp [exportLayerDictH, getSubRefs, hs, hm, hstep1,
        except_bind_ok, except_bind_error] at hok
  | some m =>
  cases ht : ld.timeseries with
  | none =>
    cases hstep1 : exportPlotsH proj h s with
    | error e =>
      simp [exportLayerDictH, getSubRefs, hs, hm, ht, hstep1,
        except_bind_ok, except_bind_error] at hok
    | ok hh1 =>
      cases hstep2 : exportPlotsH proj hh1 m with
      | error e =>
        simp [exportLayerDictH, getSubRefs, hs, hm, ht, hstep1, hstep2,
          except_bind_ok, except_bind_error] at hok
      | ok hh2 =>
        simp [exportLayerDictH, getSubRefs, hs, hm, ht, hstep1, hstep2,
          except_bind_ok, except_bind_error] at hok
  | some t =>
  have hrs : ∀ r ∈ s, n ≤ r := by
    intro r hr; exact hrefs r (by simp [hlRefs, hs, hm, ht, hr])
  have hrm : ∀ r ∈ m, n ≤ r := by
    intro r hr; exact hrefs r (by simp [hlRefs, hs, hm, ht, hr])
  have hrt : ∀ r ∈ t, n ≤ r := by
    intro r hr; exact hrefs r (by simp [hlRefs, hs, hm, ht, hr])
  cases hstep1 : exportPlotsH proj h s with
  | error e =>
    simp [exportLayerDictH, getSubRefs, hs, hm, ht, hstep1,
      except_bind_ok, except_bind_error] at hok
  | ok hh1 =>
  cases hstep2 : exportPlotsH proj hh1 m with
  | error e =>
    simp [exportLayerDictH, getSubRefs, hs, hm, ht, hstep1, hstep2,
      except_bind_ok, except_bind_error] at hok
  | ok hh2 =>
  have hok3 : exportPlotsH proj hh2 t = Except.ok h2 := by
    simpa [exportLayerDictH, getSubRefs, hs, hm, ht, hstep1, hstep2,
      except_bind_ok] using hok
  exact prefKept_trans (exportPlotsH_prefKept proj n s h hh1 hrs hstep1)
    (prefKept_trans (exportPlotsH_prefKept proj n m hh1 hh2 hrm hstep2)
      (exportPlotsH_prefKept proj n t hh2 h2 hrt hok3))

lemma exportLoopH_prefKept (proj : List Layer) (n : Nat)
    (entries : HConfig) :
    ∀ (h : Heap) (acc : List (String × HLayerDict)) (res : Heap ×
      List (String × HLayerDict)),
    (∀ r ∈ hcRefs entries, n ≤ r) →
    exportLoopH proj h entries acc = Except.ok res →
    prefKept n h res.1 := by
  induction entries with
  | nil =>
    intro h acc res _ hok
    injection hok with he
    subst he
    exact prefKept_rfl n h
  | cons e rest ih =>
    intro h acc res hrefs hok
    obtain ⟨rid, cfg⟩ := e
    have hcons : hcRefs ((rid, cfg) :: rest) = hlRefs cfg ++ hcRefs rest := by
      simp [hcRefs]
    have hrest : ∀ r ∈ hcRefs rest, n ≤ r := by
      intro r hr
      exact hrefs r (by rw [hcons]; exact List.mem_append_right _ hr)
    have hcfg : ∀ r ∈ hlRefs cfg, n ≤ r := by
      intro r hr
      exact hrefs r (by rw [hcons]; exact List.mem_append_left _ hr)
    cases hml : mapLayer proj rid with
    | none =>
      rw [exportLoopH, hml] at hok
      exact ih h acc res hrest hok
    | some rl =>
      cases hstep : exportLayerDictH proj h cfg with
      | error e2 =>
        simp [exportLoopH, hml, hstep, except_bind_error] at hok
      | ok hh1 =>
        simp only [exportLoopH, hml, hstep, except_bind_ok] at hok
        exact prefKept_trans
          (exportLayerDictH_prefKept proj n cfg h hh1 hcfg hstep)
          (ih hh1 _ res hrest hok)

/-- C10: `export_config` never modifies its argument: every store cell
referenced by the caller's configuration (and in fact every pre-existing
cell) is unchanged by the call, because all source substitutions are
performed on the deep copy allocated at fresh addresses. -/
theorem c10_export_argument_unchanged (proj : List Layer) (h : Heap)
    (c : HConfig) (res : Heap × Config)
    (hok : export_config_heap proj h c = Except.ok res) :
    (∀ i, i < h.cells.length → res.1.cells[i]? = h.cells[i]?) ∧
    (∀ r ∈ hcRefs c, r < h.cells.length →
      readCell res.1 r = readCell h r) := by
  obtain ⟨hext, hfresh⟩ := deepcopyConfig_spec c h
  have hpre1 : prefKept h.cells.length h (deepcopyConfig h c).1 :=
    heapExtends_prefKept hext (le_refl _)
  cases hloop : exportLoopH proj (deepcopyConfig h c).1
      (deepcopyConfig h c).2 [] with
  | error e => simp [export_config_heap, hloop, except_bind_error] at hok
  | ok r2 =>
    have hres1 : res.1 = r2.1 := by
      have h2 : (Except.ok (r2.1, r2.2.map
          (fun e => (e.1, readLayerDict r2.1 e.2))) :
            Except String (Heap × Config)) = Except.ok res := by
        simpa [export_config_heap, hloop, except_bind_ok] using hok
      injection h2 with he
      rw [← he]
    have hpre2 : prefKept h.cells.length (deepcopyConfig h c).1 r2.1 :=
      exportLoopH_prefKept proj h.cells.length (deepcopyConfig h c).2
        (deepcopyConfig h c).1 [] r2 hfresh hloop
    have hpre : prefKept h.cells.length h res.1 := by
      rw [hres1]
      exact prefKept_trans hpre1 hpre2
    refine ⟨hpre, ?_⟩
    intro r _ hlt
    show res.1.cells.getD r default = h.cells.getD r default
    rw [List.getD_eq_getElem?_getD, List.getD_eq_getElem?_getD,
      hpre r hlt]

/-- Witness for C10: a concrete store whose referenced cell is untouched
by a successful export. -/
theorem c10_witness :
    readCell ⟨[{ source := SourceVal.layerId "id2" },
               { source := SourceVal.triple "src2" "nm2" "prov2" }]⟩ 0 =
      readCell ⟨[{ source := SourceVal.layerId "id2" }]⟩ 0 :=
  (c10_export_argument_unchanged
    [⟨"id1", "src1", "nm1", "prov1"⟩, ⟨"id2", "src2", "nm2", "prov2"⟩]
    ⟨[{ source := SourceVal.layerId "id2" }]⟩
    [("id1", { stratigraphy_config := some [0], log_measures := some [],
               timeseries := some [] })]
    (⟨[{ source := SourceVal.layerId "id2" },
       { source := SourceVal.triple "src2" "nm2" "prov2" }]⟩,
     [("src1#nm1#prov1",
       { stratigraphy_config :=
           some [{ source := SourceVal.triple "src2" "nm2" "prov2" }],
         log_measures := some [], timeseries := some [] })])
    (by rfl)).2 0 (by decide) (by decide)

/-! ### legend_item.py: number formatting

`format_number` formats a Python float with `"{:.Nf}"` or `"{:.1e}"`.
The float is modelled by a rational; Python's round-half-to-even tie
breaking is modelled exactly, binary floating-point representation error is
abstracted away. -/

/-- Round half to even, as Python float formatting rounds. -/
def rnd (q : ℚ) : ℤ :=
  if q - ⌊q⌋ < 1/2 then ⌊q⌋
  else if 1/2 < q - ⌊q⌋ then ⌊q⌋ + 1
  else if ⌊q⌋ % 2 = 0 then ⌊q⌋ else ⌊q⌋ + 1

def digitChar (d : Nat) : Char := Char.ofNat (48 + d)

/-- The `n` low decimal digits of `v`, zero padded to width `n`. -/
def fracDigits (v : Nat) : Nat → List Char
  | 0 => []
  | k + 1 => fracDigits (v / 10) k ++ [digitChar (v % 10)]

/-- Decimal digits of a natural number. -/
def natChars (n : Nat) : List Char :=
  if n < 10 then [digitChar n]
  else natChars (n / 10) ++ [digitChar (n % 10)]
termination_by n
decreasing_by exact Nat.div_lt_self (by omega) (by omega)

/-- `"{:.Nf}".format(f)`: fixed-point notation with `n` decimals
(no decimal point at all when `n = 0`, as in Python). -/
def fmtFixed (q : ℚ) (n : Nat) : String :=
  let scaled := rnd (q * 10 ^ n)
  let v := scaled.natAbs
  let ip := v / 10 ^ n
  let fp := v % 10 ^ n
  let sign : List Char := if scaled < 0 then ['-'] else []
  String.mk (sign ++ natChars ip ++
    (if n = 0 then [] else '.' :: fracDigits fp n))

/-- Floor of the base-10 logarithm. -/
def log10floor (n : Nat) : Nat :=
  if n < 10 then 0 else log10floor (n / 10) + 1
termination_by n
decreasing_by exact Nat.div_lt_self (by omega) (by omega)

/-- Exponent digits, two minimum, as Python writes them. -/
def expChars (e : Nat) : List Char :=
  if e < 10 then ['0', digitChar e] else natChars e

/-- `"{:.1e}".format(f)` on the domain that reaches it inside
`format_number` (`f >= 10000`): one mantissa digit, the decimal point, one
decimal digit, `e+` and the exponent. -/
def fmtSci (q : ℚ) : String :=
  let e := log10floor ⌊q⌋.toNat
  let m := (rnd (q * 10 / 10 ^ e)).toNat
  let m2 := if 100 ≤ m then 10 else m
  let e2 := if 100 ≤ m then e + 1 else e
  String.mk ([digitChar (m2 / 10), '.', digitChar (m2 % 10), 'e', '+'] ++
    expChars e2)

/-- `format_number` (`legend_item.py` lines 121-126). -/
def format_number (f : ℚ) (num_decimals : Nat := 1) : String :=
  if f < 10000 then fmtFixed f num_decimals else fmtSci f

/-- The number of decimal digits a formatted string shows: the characters
after the decimal point, if any. -/
def countDecimals (s : String) : Nat :=
  if '.' ∈ s.data then
    (s.data.reverse.takeWhile (fun c => c != '.')).length
  else 0

lemma digitChar_isDigit (d : Nat) (h : d < 10) :
    (digitChar d).isDigit = true := by
  interval_cases d <;> decide

lemma digitChar_ne_dot (d : Nat) (h : d < 10) : digitChar d ≠ '.' := by
  interval_cases d <;> decide

lemma digitChar_ne_e (d : Nat) (h : d < 10) : digitChar d ≠ 'e' := by
  interval_cases d <;> decide

lemma fracDigits_length (n : Nat) : ∀ v, (fracDigits v n).length = n := by
  induction n with
  | zero => intro v; rfl
  | succ k ih =>
    intro v
    simp [fracDigits, ih (v / 10)]

lemma fracDigits_digits (n : Nat) :
    ∀ v, ∀ c ∈ fracDigits v n, ∃ d, d < 10 ∧ c = digitChar d := by
  induction n with
  | zero => intro v c hc; cases hc
  | succ k ih =>
    intro v c hc
    simp only [fracDigits, List.mem_append, List.mem_singleton] at hc
    rcases hc with hc | hc
    · exact ih (v / 10) c hc
    · exact ⟨v % 10, Nat.mod_lt _ (by omega), hc⟩

lemma natChars_digits (n : Nat) :
    ∀ c ∈ natChars n, ∃ d, d < 10 ∧ c = digitChar d := by
  induction n using Nat.strong_induction_on with
  | _ n ih =>
    intro c hc
    rw [natChars] at hc
    by_cases h : n < 10
    · rw [if_pos h] at hc
      simp only [List.mem_singleton] at hc
      exact ⟨n, h, hc⟩
    · rw [if_neg h] at hc
      simp only [List.mem_append, List.mem_singleton] at hc
      rcases hc with hc | hc
      · exact ih (n / 10) (Nat.div_lt_self (by omega) (by omega)) c hc
      · exact ⟨n % 10, Nat.mod_lt _ (by omega), hc⟩

lemma takeWhile_all_append (p : Char → Bool) (l1 l2 : List Char)
    (c : Char) (h1 : ∀ x ∈ l1, p x = true) (h2 : p c = false) :
    List.takeWhile p (l1 ++ c :: l2) = l1 := by
  induction l1 with
  | nil => simp [List.takeWhile, h2]
  | cons a rest ih =>
    have ha : p a = true := h1 a (by simp)
    have ih2 := ih (fun x hx => h1 x (List.mem_cons_of_mem _ hx))
    simp only [List.cons_append, List.takeWhile, ha]
    simpa using ih2

/-! ### C4: the precision-increase loop of LegendItem.paint -/

/-- The while loop of `LegendItem.paint` (lines 106-110): while the two
strings are equal and fewer than 4 decimals are used, increase the
precision by one and reformat both values. -/
def adjust_decimals (mn mx : ℚ) (num_decimals : Nat)
    (min_str max_str : String) : String × String × Nat :=
  if h : min_str = max_str ∧ num_decimals < 4 then
    adjust_decimals mn mx (num_decimals + 1)
      (format_number mn (num_decimals + 1))
      (format_number mx (num_decimals + 1))
  else (min_str, max_str, num_decimals)
termination_by 4 - num_decimals
decreasing_by omega

/-- Lines 99-110 of `paint` restricted to the computed scale strings:
both values are first formatted with the default single decimal, then the
loop runs. -/
def make_scale_strings (mn mx : ℚ) : String × String × Nat :=
  adjust_decimals mn mx 1 (format_number mn) (format_number mx)

lemma adjust_decimals_spec (mn mx : ℚ) :
    ∀ (k nd : Nat), 1 ≤ nd → nd ≤ 4 → k = 4 - nd →
    ∃ n, adjust_decimals mn mx nd (format_number mn nd)
        (format_number mx nd) =
        (format_number mn n, format_number mx n, n) ∧
      nd ≤ n ∧ n ≤ 4 ∧
      (format_number mn n ≠ format_number mx n ∨ n = 4) ∧
      (∀ m, nd ≤ m → m < n → format_number mn m = format_number mx m) := by
  intro k
  induction k with
  | zero =>
    intro nd h1 h4 hk
    have hnd : nd = 4 := by omega
    subst hnd
    refine ⟨4, ?_, le_refl _, le_refl _, Or.inr rfl, ?_⟩
    · rw [adjust_decimals, dif_neg (by omega)]
    · intro m _ hm
      omega
  | succ k ih =>
    intro nd h1 h4 hk
    have hlt : nd < 4 := by omega
    by_cases heq : format_number mn nd = format_number mx nd
    · obtain ⟨n, hres, hge, hle, hexit, hmin⟩ :=
        ih (nd + 1) (by omega) (by omega) (by omega)
      refine ⟨n, ?_, by omega, hle, hexit, ?_⟩
      · rw [adjust_decimals, dif_pos ⟨heq, hlt⟩]
        exact hres
      · intro m hm1 hm2
        rcases Nat.eq_or_lt_of_le hm1 with hmeq | hmlt
        · rw [← hmeq]
          exact heq
        · exact hmin m hmlt hm2
    · refine ⟨nd, ?_, le_refl _, h4, Or.inl heq, ?_⟩
      · rw [adjust_decimals, dif_neg (by exact fun hc => heq hc.1)]
      · intro m hm1 hm2
        omega

/-- C4: starting from one decimal digit, `paint` increments the precision
one step at a time, reformatting both values at each step, until the two
strings differ or the cap of 4 decimal digits is reached; the loop
terminates and the final precision is between 1 and 4, the returned
strings are the reformatted values at that precision, and every precision
tried before the final one produced equal strings. -/
theorem c4_min_max_precision_loop (mn mx : ℚ) :
    1 ≤ (make_scale_strings mn mx).2.2 ∧
    (make_scale_strings mn mx).2.2 ≤ 4 ∧
    (make_scale_strings mn mx).1 =
      format_number mn ((make_scale_strings mn mx).2.2) ∧
    (make_scale_strings mn mx).2.1 =
      format_number mx ((make_scale_strings mn mx).2.2) ∧
    ((make_scale_strings mn mx).1 ≠ (make_scale_strings mn mx).2.1 ∨
      (make_scale_strings mn mx).2.2 = 4) ∧
    ∀ m, 1 ≤ m → m < (make_scale_strings mn mx).2.2 →
      format_number mn m = format_number mx m := by
  obtain ⟨n, hres, hge, hle, hexit, hmin⟩ :=
    adjust_decimals_spec mn mx 3 1 (le_refl _) (by omega) rfl
  have hmk : make_scale_strings mn mx =
      (format_number mn n, format_number mx n, n) := by
    unfold make_scale_strings
    exact hres
  rw [hmk]
  exact ⟨hge, hle, rfl, rfl, hexit, hmin⟩

/-! ### C5: format_number branches and shapes -/

lemma rnd_bounds (q : ℚ) : ⌊q⌋ ≤ rnd q ∧ rnd q ≤ ⌊q⌋ + 1 := by
  unfold rnd
  split_ifs <;> omega

lemma log10floor_bounds :
    ∀ n : Nat, 1 ≤ n →
    10 ^ log10floor n ≤ n ∧ n < 10 ^ (log10floor n + 1) := by
  intro n
  induction n using Nat.strong_induction_on with
  | _ n ih =>
    intro h1
    by_cases h : n < 10
    · rw [log10floor, if_pos h]
      constructor
      · simpa using h1
      · simpa using h
    · rw [log10floor, if_neg h]
      have h10 : 1 ≤ n / 10 := by
        rw [Nat.le_div_iff_mul_le (by omega)]
        omega
      obtain ⟨hlo, hhi⟩ := ih (n / 10)
        (Nat.div_lt_self (by omega) (by omega)) h10
      have hdm := Nat.div_add_mod n 10
      have hmod : n % 10 < 10 := Nat.mod_lt _ (by omega)
      constructor
      · have hstep : 10 ^ log10floor (n / 10) * 10 ≤ n / 10 * 10 :=
          Nat.mul_le_mul_right _ hlo
        have h2 : n / 10 * 10 ≤ n := Nat.div_mul_le_self n 10
        calc 10 ^ (log10floor (n / 10) + 1)
            = 10 ^ log10floor (n / 10) * 10 := pow_succ 10 _
          _ ≤ n / 10 * 10 := hstep
          _ ≤ n := h2
      · have h3 : n / 10 + 1 ≤ 10 ^ (log10floor (n / 10) + 1) := hhi
        have h4 : (n / 10 + 1) * 10 ≤ 10 ^ (log10floor (n / 10) + 1) * 10 :=
          Nat.mul_le_mul_right _ h3
        have h5 : n < (n / 10 + 1) * 10 := by omega
        calc n < (n / 10 + 1) * 10 := h5
          _ ≤ 10 ^ (log10floor (n / 10) + 1) * 10 := h4
          _ = 10 ^ (log10floor (n / 10) + 1 + 1) := (pow_succ 10 _).symm

lemma fmtSci_shape (q : ℚ) (hq : (10000 : ℚ) ≤ q) :
    ∃ d1 d2 rest, (fmtSci q).data = d1 :: '.' :: d2 :: 'e' :: rest ∧
      d1.isDigit = true ∧ d2.isDigit = true := by
  have hfl : (10000 : ℤ) ≤ ⌊q⌋ := by
    rw [Int.le_floor]
    exact_mod_cast hq
  have hflnn : (0 : ℤ) ≤ ⌊q⌋ := by omega
  have htz : ((⌊q⌋.toNat : ℤ)) = ⌊q⌋ := Int.toNat_of_nonneg hflnn
  have ht1 : 1 ≤ ⌊q⌋.toNat := by omega
  obtain ⟨hlo, hhi⟩ := log10floor_bounds ⌊q⌋.toNat ht1
  have hpow : (0 : ℚ) < 10 ^ log10floor ⌊q⌋.toNat := by positivity
  have hAz : (10 : ℤ) ^ log10floor ⌊q⌋.toNat ≤ ⌊q⌋ := by
    rw [← htz]
    exact_mod_cast hlo
  have hA : ((10 : ℚ)) ^ log10floor ⌊q⌋.toNat ≤ (⌊q⌋ : ℚ) := by
    exact_mod_cast hAz
  have hDz : ⌊q⌋ + 1 ≤ (10 : ℤ) ^ (log10floor ⌊q⌋.toNat + 1) := by
    have h2 : (⌊q⌋.toNat : ℤ) < (10 : ℤ) ^ (log10floor ⌊q⌋.toNat + 1) := by
      exact_mod_cast hhi
    rw [htz] at h2
    omega
  have hD : ((⌊q⌋ : ℚ)) + 1 ≤ (10 : ℚ) ^ (log10floor ⌊q⌋.toNat + 1) := by
    exact_mod_cast hDz
  have hxlo : (10 : ℚ) ≤ q * 10 / 10 ^ log10floor ⌊q⌋.toNat := by
    rw [le_div_iff₀ hpow]
    have h1 : ((10 : ℚ)) ^ log10floor ⌊q⌋.toNat ≤ q :=
      le_trans hA (Int.floor_le q)
    linarith
  have hxhi : q * 10 / 10 ^ log10floor ⌊q⌋.toNat < 100 := by
    rw [div_lt_iff₀ hpow]
    have hq1 : q < (10 : ℚ) ^ (log10floor ⌊q⌋.toNat + 1) :=
      lt_of_lt_of_le (Int.lt_floor_add_one q) hD
    have hps : (10 : ℚ) ^ (log10floor ⌊q⌋.toNat + 1) =
        10 ^ log10floor ⌊q⌋.toNat * 10 := pow_succ 10 _
    nlinarith
  have hmlo : (10 : ℤ) ≤ rnd (q * 10 / 10 ^ log10floor ⌊q⌋.toNat) :=
    le_trans (Int.le_floor.mpr (by exact_mod_cast hxlo))
      (rnd_bounds _).1
  have hmhi : rnd (q * 10 / 10 ^ log10floor ⌊q⌋.toNat) ≤ 100 := by
    have h1 : ⌊q * 10 / 10 ^ log10floor ⌊q⌋.toNat⌋ < 100 :=
      Int.floor_lt.mpr (by exact_mod_cast hxhi)
    have h2 := (rnd_bounds (q * 10 / 10 ^ log10floor ⌊q⌋.toNat)).2
    omega
  simp only [fmtSci]
  set e := log10floor ⌊q⌋.toNat with hedef
  set m := (rnd (q * 10 / 10 ^ e)).toNat with hmdef
  have hmn : 10 ≤ m ∧ m ≤ 100 := by
    constructor <;> omega
  by_cases h100 : 100 ≤ m
  · simp only [h100, if_true]
    refine ⟨digitChar (10 / 10), digitChar (10 % 10),
      '+' :: expChars (e + 1), rfl, by decide, by decide⟩
  · simp only [h100, if_false]
    refine ⟨digitChar (m / 10), digitChar (m % 10), '+' :: expChars e,
      rfl, ?_, ?_⟩
    · exact digitChar_isDigit _ (by omega)
    · exact digitChar_isDigit _ (by omega)

lemma countDecimals_append (A B : List Char) (_hA : ∀ c ∈ A, c ≠ '.')
    (hB : ∀ c ∈ B, c ≠ '.') :
    countDecimals (String.mk (A ++ '.' :: B)) = B.length := by
  unfold countDecimals
  rw [if_pos (by simp)]
  have hrev : (A ++ '.' :: B).reverse = B.reverse ++ '.' :: A.reverse := by
    rw [List.reverse_append, List.reverse_cons, List.append_assoc]
    simp
  show ((A ++ '.' :: B).reverse.takeWhile (fun c => c != '.')).length = _
  rw [hrev, takeWhile_all_append _ _ _ _ ?ha ?hb]
  · exact List.length_reverse B
  case ha =>
    intro x hx
    have := hB x (List.mem_reverse.mp hx)
    simpa using this
  case hb => decide

lemma countDecimals_nodot (A : List Char) (hA : ∀ c ∈ A, c ≠ '.') :
    countDecimals (String.mk A) = 0 := by
  unfold countDecimals
  rw [if_neg]
  intro hc
  exact hA '.' hc rfl

lemma fmtFixed_decimals (q : ℚ) (n : Nat) :
    countDecimals (fmtFixed q n) = n ∧ 'e' ∉ (fmtFixed q n).data := by
  have hA : ∀ c ∈ ((if rnd (q * 10 ^ n) < 0 then ['-'] else []) ++
      natChars ((rnd (q * 10 ^ n)).natAbs / 10 ^ n)), c ≠ '.' ∧ c ≠ 'e' := by
    intro c hc
    rcases List.mem_append.mp hc with hc | hc
    · by_cases hneg : rnd (q * 10 ^ n) < 0
      · rw [if_pos hneg] at hc
        have hc2 : c = '-' := by simpa using hc
        subst hc2
        exact ⟨by decide, by decide⟩
      · rw [if_neg hneg] at hc
        cases hc
    · obtain ⟨d, hd, hcd⟩ := natChars_digits _ c hc
      subst hcd
      exact ⟨digitChar_ne_dot d hd, digitChar_ne_e d hd⟩
  have hB : ∀ c ∈ fracDigits ((rnd (q * 10 ^ n)).natAbs % 10 ^ n) n,
      c ≠ '.' ∧ c ≠ 'e' := by
    intro c hc
    obtain ⟨d, hd, hcd⟩ := fracDigits_digits n _ c hc
    subst hcd
    exact ⟨digitChar_ne_dot d hd, digitChar_ne_e d hd⟩
  cases n with
  | zero =>
    have hdata : (fmtFixed q 0).data =
        (if rnd (q * 10 ^ 0) < 0 then ['-'] else []) ++
          natChars ((rnd (q * 10 ^ 0)).natAbs / 10 ^ 0) := by
      simp [fmtFixed]
    constructor
    · show countDecimals (fmtFixed q 0) = 0
      have : fmtFixed q 0 = String.mk
          ((if rnd (q * 10 ^ 0) < 0 then ['-'] else []) ++
            natChars ((rnd (q * 10 ^ 0)).natAbs / 10 ^ 0)) := by
        simp [fmtFixed]
      rw [this]
      exact countDecimals_nodot _ (fun c hc => (hA c hc).1)
    · rw [hdata]
      intro hc
      exact (hA 'e' hc).2 rfl
  | succ k =>
    have hne : ¬ (k + 1 = 0) := by omega
    have hform : fmtFixed q (k + 1) = String.mk
        (((if rnd (q * 10 ^ (k + 1)) < 0 then ['-'] else []) ++
          natChars ((rnd (q * 10 ^ (k + 1))).natAbs / 10 ^ (k + 1))) ++
          '.' :: fracDigits ((rnd (q * 10 ^ (k + 1))).natAbs % 10 ^ (k + 1))
            (k + 1)) := by
      simp [fmtFixed, hne]
    constructor
    · rw [hform, countDecimals_append _ _ (fun c hc => (hA c hc).1)
        (fun c hc => (hB c hc).1)]
      exact fracDigits_length (k + 1) _
    · rw [hform]
      intro hc
      show False
      have hc2 : 'e' ∈ ((if rnd (q * 10 ^ (k + 1)) < 0 then ['-'] else []) ++
          natChars ((rnd (q * 10 ^ (k + 1))).natAbs / 10 ^ (k + 1))) ∨
          'e' = '.' ∨ 'e' ∈ fracDigits
            ((rnd (q * 10 ^ (k + 1))).natAbs % 10 ^ (k + 1)) (k + 1) := by
        simpa using hc
      rcases hc2 with hc2 | hc2 | hc2
      · exact (hA 'e' hc2).2 rfl
      · exact absurd hc2 (by decide)
      · exact (hB 'e' hc2).2 rfl

/-- C5: for `f >= 10000`, `format_number` returns scientific notation with
exactly one decimal digit (one digit, the point, one digit, `e`, the
exponent) and ignores the requested precision; for `f < 10000` it returns
fixed-point notation with exactly `n` decimal digits. -/
theorem c5_format_number (f : ℚ) (n : Nat) :
    ((10000 : ℚ) ≤ f →
      (∃ d1 d2 rest, (format_number f n).data =
          d1 :: '.' :: d2 :: 'e' :: rest ∧
        d1.isDigit = true ∧ d2.isDigit = true) ∧
      ∀ m, format_number f n = format_number f m) ∧
    (f < 10000 →
      countDecimals (format_number f n) = n ∧
      'e' ∉ (format_number f n).data) := by
  constructor
  · intro hf
    have hnl : ¬ f < 10000 := not_lt.mpr hf
    constructor
    · rw [format_number, if_neg hnl]
      exact fmtSci_shape f hf
    · intro m
      rw [format_number, if_neg hnl, format_number, if_neg hnl]
  · intro hf
    rw [format_number, if_pos hf]
    exact fmtFixed_decimals f n

/-- Witness for C5 at concrete values on both sides of the threshold. -/
theorem c5_witness :
    countDecimals (format_number (500 : ℚ) 2) = 2 ∧
    format_number (12345 : ℚ) 1 = format_number (12345 : ℚ) 3 :=
  ⟨((c5_format_number 500 2).2 (by norm_num)).1,
   ((c5_format_number 12345 1).1 (by norm_num)).2 3⟩

/-! ### C6: boundingRect orientation and the vertical paint transform -/

/-- `LegendItem.boundingRect` (lines 59-63): `(0, 0, width, height)`
horizontally, the two sizes swapped when `is_vertical`. -/
def boundingRect (width height : ℚ) (is_vertical : Bool) :
    ℚ × ℚ × ℚ × ℚ :=
  if is_vertical then (0, 0, height, width) else (0, 0, width, height)

/-- `painter.rotate(-90.0)` in Qt's y-down coordinate system, as a map on
drawing coordinates. -/
def qtRotateM90 (p : ℚ × ℚ) : ℚ × ℚ := (p.2, -p.1)

/-- `painter.translate(dx, dy)` as a map on drawing coordinates. -/
def translateBy (d p : ℚ × ℚ) : ℚ × ℚ := (p.1 + d.1, p.2 + d.2)

/-- The transform `paint` (lines 71-75) applies to drawing coordinates in
vertical mode: `translate(height/2, width/2); rotate(-90);
translate(-width/2, -height/2)` -- painter transforms apply to the drawn
point in reverse call order -- and the identity otherwise. -/
def paintTransform (width height : ℚ) (is_vertical : Bool)
    (p : ℚ × ℚ) : ℚ × ℚ :=
  if is_vertical then
    translateBy (height / 2, width / 2)
      (qtRotateM90 (translateBy (-width / 2, -height / 2) p))
  else p

/-- Modelled from the spec: "rotating the paint transform about the panel
center" -- the 90 degree rotation about the center `(height/2, width/2)`
of the vertical panel. -/
def rotateAboutPanelCenter (width height : ℚ) (p : ℚ × ℚ) : ℚ × ℚ :=
  translateBy (height / 2, width / 2)
    (qtRotateM90 (translateBy (-(height / 2), -(width / 2)) p))

/-- Modelled from the spec, alternative reading: the 90 degree rotation
about the center `(width/2, height/2)` of the horizontal layout. -/
def rotateAboutLayoutCenter (width height : ℚ) (p : ℚ × ℚ) : ℚ × ℚ :=
  translateBy (width / 2, height / 2)
    (qtRotateM90 (translateBy (-(width / 2), -(height / 2)) p))

/-- C6 counterexample: at width 100, height 40, the vertical paint
transform is not the rotation about the panel center (nor about the
layout center): it maps the corner (0,0) to (0, 100), the two rotations
map it to (-30, 70) and (30, 70). -/
theorem c6_counterexample :
    paintTransform 100 40 true (0, 0) ≠
      rotateAboutPanelCenter 100 40 (0, 0) ∧
    paintTransform 100 40 true (0, 0) ≠
      rotateAboutLayoutCenter 100 40 (0, 0) := by
  constructor <;>
  · simp only [paintTransform, rotateAboutPanelCenter,
      rotateAboutLayoutCenter, translateBy, qtRotateM90, if_true, ne_eq,
      Prod.ext_iff]
    norm_num

/-- C6 (amended): `boundingRect` swaps the width and height roles in
vertical mode as claimed; in vertical mode `paint` applies the transform
`p ↦ (p.2, width - p.1)`, the 90 degree rotation `rotate(-90)` composed
with the translation `(0, width)`.  It maps the horizontal layout onto the
vertical panel and carries the layout center `(width/2, height/2)` to the
panel center `(height/2, width/2)`, but it equals the rotation about the
panel center itself only when `width = height`. -/
theorem c6_bounding_rect_and_rotation (w h : ℚ) (p : ℚ × ℚ) :
    boundingRect w h false = (0, 0, w, h) ∧
    boundingRect w h true = (0, 0, h, w) ∧
    paintTransform w h false p = p ∧
    paintTransform w h true p = (p.2, w - p.1) ∧
    paintTransform w h true p = translateBy (0, w) (qtRotateM90 p) ∧
    paintTransform w h true (w / 2, h / 2) = (h / 2, w / 2) ∧
    (w = h → paintTransform w h true p = rotateAboutPanelCenter w h p) := by
  refine ⟨rfl, rfl, rfl, ?_, ?_, ?_, ?_⟩
  · simp only [paintTransform, translateBy, qtRotateM90, if_true,
      Prod.ext_iff]
    constructor <;> ring
  · simp only [paintTransform, translateBy, qtRotateM90, if_true,
      Prod.ext_iff]
    constructor <;> ring
  · simp only [paintTransform, translateBy, qtRotateM90, if_true,
      Prod.ext_iff]
    constructor <;> ring
  · intro hw
    subst hw
    simp only [paintTransform, rotateAboutPanelCenter, translateBy,
      qtRotateM90, if_true, Prod.ext_iff]
    constructor <;> ring

/-- Witness for C6 (amended) at concrete sizes. -/
theorem c6_witness :
    boundingRect 100 40 true = (0, 0, 40, 100) ∧
    paintTransform 100 40 true (0, 0) = (0, 100) :=
  ⟨(c6_bounding_rect_and_rotation 100 40 (0, 0)).2.1,
   by simpa using (c6_bounding_rect_and_rotation 100 40 (0, 0)).2.2.2.1⟩

/-- Witness for C4 at concrete scale values. -/
theorem c4_witness :
    1 ≤ (make_scale_strings 1 2).2.2 ∧ (make_scale_strings 1 2).2.2 ≤ 4 :=
  ⟨(c4_min_max_precision_loop 1 2).1, (c4_min_max_precision_loop 1 2).2.1⟩
